import Mathlib

/-!
Verification of the OneWayQR transport core (frame codec, XOR FEC,
sender frame generation, receiver reassembly) against its specification.

Bytes are modelled as natural numbers below 256, byte strings as
`List Nat`, and ASCII text (base64 frames) as lists of character codes.
Fallible Python operations are modelled with `Except`/`Option`.
-/

set_option maxHeartbeats 1000000
set_option maxRecDepth 100000

deriving instance DecidableEq for Except

/-- Kinds of Python exceptions the modelled code can raise:
`FrameError` (the codec's own error class), `ValueError`
(raised by `FrameType(...)` on an undefined discriminant) and
`struct.error` (raised by `struct.pack` on out-of-range field values). -/
inductive PyErr where
  | frameError
  | valueError
  | structError
deriving DecidableEq, Repr

/-- Byte at index `i` of a byte string, reading `0` past the end
(used to express right-zero-padding pointwise). -/
def byteAt (b : List Nat) (i : Nat) : Nat := b.getD i 0

/-- `bytes.ljust(n, b"\x00")`: right-pad with zero bytes up to length `n`
(unchanged if already at least that long). -/
def padTo (b : List Nat) (n : Nat) : List Nat := b ++ List.replicate (n - b.length) 0

/-- Pointwise XOR of two equal-length byte strings. -/
def zipXor (a b : List Nat) : List Nat := List.zipWith Nat.xor a b

/-- XOR-fold of a list of naturals. -/
def xorFold (l : List Nat) : Nat := l.foldr Nat.xor 0

/-- `max(len(b) for b in blocks)` (with `0` for the empty list). -/
def maxLen (blocks : List (List Nat)) : Nat := blocks.foldl (fun a b => max a b.length) 0

theorem padTo_length (b : List Nat) (n : Nat) : (padTo b n).length = max b.length n := by
  simp [padTo]
  omega

theorem byteAt_padTo (b : List Nat) (n i : Nat) : byteAt (padTo b n) i = byteAt b i := by
  unfold byteAt padTo
  rcases lt_or_ge i b.length with h | h
  · rw [List.getD_eq_getElem (b ++ List.replicate (n - b.length) 0) 0 (by simp; omega),
        List.getD_eq_getElem b 0 h]
    exact List.getElem_append_left h
  · rw [List.getD_eq_default b 0 h]
    rcases lt_or_ge i (b.length + (n - b.length)) with h2 | h2
    · rw [List.getD_eq_getElem (b ++ List.replicate (n - b.length) 0) 0 (by simp; omega)]
      rw [List.getElem_append_right (by omega)]
      simp
    · exact List.getD_eq_default _ 0 (by simp; omega)

theorem xorFold_append (a b : List Nat) :
    xorFold (a ++ b) = Nat.xor (xorFold a) (xorFold b) := by
  induction a with
  | nil =>
    simp only [xorFold, List.nil_append, List.foldr_nil]
    exact (Nat.zero_xor _).symm
  | cons x xs ih =>
    simp only [xorFold, List.foldr_cons, List.cons_append] at *
    rw [ih]
    exact (Nat.xor_assoc _ _ _).symm

theorem div_mul_add (k x y : Nat) (hk : 0 < k) (hy : y < k) : (x * k + y) / k = x := by
  rw [Nat.add_comm, Nat.add_mul_div_right _ _ hk, Nat.div_eq_of_lt hy, Nat.zero_add]

theorem mod_mul_add (k x y : Nat) (hy : y < k) : (x * k + y) % k = y := by
  rw [Nat.add_comm, Nat.add_mul_mod_self_right, Nat.mod_eq_of_lt hy]

theorem foldl_max_le_init (l : List (List Nat)) : ∀ a : Nat,
    a ≤ l.foldl (fun a b => max a b.length) a := by
  induction l with
  | nil => intro a; simp
  | cons y ys ihy =>
    intro a
    simp only [List.foldl_cons]
    exact le_trans (le_max_left a y.length) (ihy _)

theorem maxLen_le_aux (blocks : List (List Nat)) (b : List Nat) (hb : b ∈ blocks) :
    ∀ acc : Nat, b.length ≤ blocks.foldl (fun a bl => max a bl.length) acc := by
  induction blocks with
  | nil => cases hb
  | cons x xs ih =>
    intro acc
    simp only [List.foldl_cons]
    rcases List.mem_cons.mp hb with h | h
    · subst h
      exact le_trans (le_max_right acc b.length) (foldl_max_le_init xs _)
    · exact ih h _

theorem maxLen_le (blocks : List (List Nat)) (b : List Nat) (hb : b ∈ blocks) :
    b.length ≤ maxLen blocks :=
  maxLen_le_aux blocks b hb 0

/-! ## CRC-32 (model of `zlib.crc32`, IEEE reflected polynomial) -/

/-- One byte step of the bit-serial CRC-32 computation. -/
def crc32Byte (crc b : Nat) : Nat :=
  (List.range 8).foldl
    (fun c _ => if c % 2 = 1 then Nat.xor (c / 2) 0xEDB88320 else c / 2)
    (Nat.xor crc (b % 256))

/-- `zlib.crc32(data)`: initial value `0xFFFFFFFF`, bit-serial update with
the reflected polynomial `0xEDB88320`, final complement. -/
def crc32 (data : List Nat) : Nat :=
  Nat.xor (data.foldl crc32Byte 0xFFFFFFFF) 0xFFFFFFFF

/-! ## Big-endian fixed-width integer serialisation (model of `struct` `>I` / `>H`) -/

/-- `k`-byte big-endian encoding of `n` (low bytes of `n` if it overflows). -/
def beBytes : Nat → Nat → List Nat
  | 0, _ => []
  | k + 1, n => beBytes k (n / 256) ++ [n % 256]

/-- Big-endian interpretation of a byte string. -/
def beDecode (l : List Nat) : Nat := l.foldl (fun acc b => acc * 256 + b) 0

theorem beBytes_length (k n : Nat) : (beBytes k n).length = k := by
  induction k generalizing n with
  | zero => rfl
  | succ k ih => simp [beBytes, ih]

theorem beBytes_lt (k n : Nat) : ∀ b ∈ beBytes k n, b < 256 := by
  induction k generalizing n with
  | zero => simp [beBytes]
  | succ k ih =>
    intro b hb
    simp only [beBytes, List.mem_append, List.mem_singleton] at hb
    rcases hb with h | h
    · exact ih _ b h
    · subst h; exact Nat.mod_lt _ (by norm_num)

theorem beDecode_append_singleton (l : List Nat) (b : Nat) :
    beDecode (l ++ [b]) = beDecode l * 256 + b := by
  simp [beDecode]

theorem beDecode_beBytes (k n : Nat) (h : n < 256 ^ k) :
    beDecode (beBytes k n) = n := by
  induction k generalizing n with
  | zero =>
    simp [beBytes, beDecode]
    omega
  | succ k ih =>
    simp only [beBytes, beDecode_append_singleton]
    rw [ih (n / 256) (by
      have : 256 ^ (k + 1) = 256 ^ k * 256 := by ring
      rw [this] at h
      exact Nat.div_lt_of_lt_mul (by omega))]
    omega

/-! ## Base64 (standard alphabet, strict decoding; model of
`base64.b64encode` / `base64.b64decode(..., validate=True)`) -/

/-- The standard base64 alphabet, as ASCII codes indexed by 6-bit value. -/
def alphaChar (i : Nat) : Nat :=
  if i < 26 then 65 + i
  else if i < 52 then 97 + (i - 26)
  else if i < 62 then 48 + (i - 52)
  else if i = 62 then 43
  else 47

/-- Inverse of the alphabet: 6-bit value of an ASCII code, `none` for
characters outside the standard alphabet ('=' included). -/
def decodeChar (c : Nat) : Option Nat :=
  if 65 ≤ c ∧ c ≤ 90 then some (c - 65)
  else if 97 ≤ c ∧ c ≤ 122 then some (26 + (c - 97))
  else if 48 ≤ c ∧ c ≤ 57 then some (52 + (c - 48))
  else if c = 43 then some 62
  else if c = 47 then some 63
  else none

/-- `base64.b64encode`: canonical encoding, three input bytes per four
output characters, '='-padded final group. -/
def b64encode : List Nat → List Nat
  | [] => []
  | [a] => [alphaChar (a / 4), alphaChar (a % 4 * 16), 61, 61]
  | [a, b] => [alphaChar (a / 4), alphaChar (a % 4 * 16 + b / 16), alphaChar (b % 16 * 4), 61]
  | a :: b :: c :: rest =>
      alphaChar (a / 4) :: alphaChar (a % 4 * 16 + b / 16) ::
      alphaChar (b % 16 * 4 + c / 64) :: alphaChar (c % 64) :: b64encode rest

/-- Strict base64 decoding: the length must be a multiple of four, all
characters must come from the standard alphabet, '=' may appear only as
correct padding of the final group, and nothing may follow the padding.
Rejections return `none` (Python raises `binascii.Error`). -/
def b64decode : List Nat → Option (List Nat)
  | [] => some []
  | c0 :: c1 :: c2 :: c3 :: rest =>
      match decodeChar c0, decodeChar c1 with
      | some i0, some i1 =>
        if c2 = 61 then
          if c3 = 61 ∧ rest = [] then some [i0 * 4 + i1 / 16] else none
        else
          match decodeChar c2 with
          | some i2 =>
            if c3 = 61 then
              if rest = [] then some [i0 * 4 + i1 / 16, i1 % 16 * 16 + i2 / 4] else none
            else
              match decodeChar c3 with
              | some i3 =>
                (b64decode rest).map
                  (fun tail => (i0 * 4 + i1 / 16) :: (i1 % 16 * 16 + i2 / 4) ::
                               (i2 % 4 * 64 + i3) :: tail)
              | none => none
          | none => none
      | _, _ => none
  | _ => none

theorem decodeChar_alphaChar : ∀ i < 64, decodeChar (alphaChar i) = some i := by decide

theorem alphaChar_ne_61 : ∀ i < 64, alphaChar i ≠ 61 := by decide

theorem b64_roundtrip : ∀ (n : Nat) (l : List Nat), l.length ≤ n →
    (∀ b ∈ l, b < 256) → b64decode (b64encode l) = some l := by
  intro n
  induction n with
  | zero =>
    intro l hl _
    have : l = [] := List.eq_nil_of_length_eq_zero (Nat.le_zero.mp hl)
    subst this
    rfl
  | succ n ih =>
    intro l hl hb
    match l with
    | [] => rfl
    | [a] =>
      have ha : a < 256 := hb a (by simp)
      simp only [b64encode, b64decode,
        decodeChar_alphaChar (a / 4) (by omega),
        decodeChar_alphaChar (a % 4 * 16) (by omega)]
      simp only [if_pos rfl, and_self, if_pos]
      have h1 : (a % 4 * 16) / 16 = a % 4 := Nat.mul_div_cancel _ (by norm_num)
      rw [h1]
      have ea : a / 4 * 4 + a % 4 = a := by omega
      rw [ea]
    | [a, b] =>
      have ha : a < 256 := hb a (by simp)
      have hb2 : b < 256 := hb b (by simp)
      simp only [b64encode, b64decode,
        decodeChar_alphaChar (a / 4) (by omega),
        decodeChar_alphaChar (a % 4 * 16 + b / 16) (by omega),
        decodeChar_alphaChar (b % 16 * 4) (by omega)]
      simp only [if_neg (alphaChar_ne_61 (b % 16 * 4) (by omega)), if_pos rfl]
      have h1 : (a % 4 * 16 + b / 16) / 16 = a % 4 := div_mul_add 16 _ _ (by norm_num) (by omega)
      have h2 : (a % 4 * 16 + b / 16) % 16 = b / 16 := mod_mul_add 16 _ _ (by omega)
      have h3 : (b % 16 * 4) / 4 = b % 16 := Nat.mul_div_cancel _ (by norm_num)
      have ea : a / 4 * 4 + a % 4 = a := by omega
      have eb : b / 16 * 16 + b % 16 = b := by omega
      simp [h1, h2, h3, ea, eb]
    | a :: b :: c :: rest =>
      have ha : a < 256 := hb a (by simp)
      have hb2 : b < 256 := hb b (by simp)
      have hc : c < 256 := hb c (by simp)
      have n1 : alphaChar (b % 16 * 4 + c / 64) ≠ 61 := alphaChar_ne_61 _ (by omega)
      have n2 : alphaChar (c % 64) ≠ 61 := alphaChar_ne_61 _ (by omega)
      have hrest : b64decode (b64encode rest) = some rest :=
        ih rest (by simp at hl; omega) (fun x hx => hb x (by simp [hx]))
      have h1 : (a % 4 * 16 + b / 16) / 16 = a % 4 := div_mul_add 16 _ _ (by norm_num) (by omega)
      have h2 : (a % 4 * 16 + b / 16) % 16 = b / 16 := mod_mul_add 16 _ _ (by omega)
      have h3 : (b % 16 * 4 + c / 64) / 4 = b % 16 := div_mul_add 4 _ _ (by norm_num) (by omega)
      have h4 : (b % 16 * 4 + c / 64) % 4 = c / 64 := mod_mul_add 4 _ _ (by omega)
      have ea : a / 4 * 4 + a % 4 = a := by omega
      have eb : b / 16 * 16 + b % 16 = b := by omega
      have ec : c / 64 * 64 + c % 64 = c := by omega
      simp only [b64encode, b64decode,
        decodeChar_alphaChar (a / 4) (by omega),
        decodeChar_alphaChar (a % 4 * 16 + b / 16) (by omega),
        decodeChar_alphaChar (b % 16 * 4 + c / 64) (by omega),
        decodeChar_alphaChar (c % 64) (by omega)]
      simp [n1, n2, hrest, h1, h2, h3, h4, ea, eb, ec]

/-! ## Frame codec (model of `onewayqr/frames.py`) -/

/-- Frame magic, ASCII "QRCM". -/
def MAGIC : List Nat := [81, 82, 67, 77]

/-- Protocol version. -/
def VERSION : Nat := 1

/-- Frame discriminator (`FrameType` IntEnum). -/
inductive FrameType where
  | SESSION_HEADER
  | DATA
  | FEC
  | INDEX
deriving DecidableEq, Repr

/-- Wire value of a frame type. -/
def FrameType.toNat : FrameType → Nat
  | .SESSION_HEADER => 0
  | .DATA => 1
  | .FEC => 2
  | .INDEX => 3

/-- `FrameType(n)`: the enum member of a wire value, `none` when the value is
undefined (Python raises `ValueError`). -/
def FrameType.ofNat? : Nat → Option FrameType
  | 0 => some .SESSION_HEADER
  | 1 => some .DATA
  | 2 => some .FEC
  | 3 => some .INDEX
  | _ => none

/-- The transport unit (`Frame` dataclass). -/
structure Frame where
  frame_type : FrameType
  session_id : List Nat
  superblock_id : Nat
  block_id : Nat
  total_blocks : Nat
  blocks_in_super : Nat
  flags : Nat
  payload : List Nat
deriving DecidableEq, Repr

/-- The 39-byte header `_HEADER_STRUCT.pack(...)` of a frame:
magic, version, type, flags, session id, superblock/block/total ids,
blocks-in-super, payload length, all big-endian. -/
def frameHeader (f : Frame) : List Nat :=
  MAGIC ++ [VERSION] ++ [f.frame_type.toNat] ++ [f.flags % 256] ++ f.session_id
    ++ beBytes 4 f.superblock_id ++ beBytes 4 f.block_id ++ beBytes 4 f.total_blocks
    ++ beBytes 2 f.blocks_in_super ++ beBytes 2 f.payload.length

/-- `Frame.to_bytes`: header ∥ payload ∥ CRC32(header ∥ payload).
Raises `FrameError` when the session id is not 16 bytes or the payload
exceeds 65535 bytes; `struct.error` when a fixed-width field overflows. -/
def Frame.to_bytes (f : Frame) : Except PyErr (List Nat) :=
  if f.session_id.length ≠ 16 then .error .frameError
  else if f.payload.length > 0xFFFF then .error .frameError
  else if f.superblock_id ≥ 2 ^ 32 ∨ f.block_id ≥ 2 ^ 32 ∨ f.total_blocks ≥ 2 ^ 32
          ∨ f.blocks_in_super ≥ 2 ^ 16 then .error .structError
  else
    .ok (frameHeader f ++ f.payload ++ beBytes 4 (crc32 (frameHeader f ++ f.payload) % 2 ^ 32))

/-- Declared payload length of a raw buffer (bytes 37–38, big-endian). -/
def rawPayloadLen (data : List Nat) : Nat := beDecode ((data.drop 37).take 2)

/-- `Frame.from_bytes`: parse and validate a raw frame buffer.
`frameError` for a short buffer, wrong magic, wrong version, inconsistent
declared length, or CRC mismatch; `valueError` when everything checks out
but the frame-type byte is not a defined `FrameType`. -/
def Frame.from_bytes (data : List Nat) : Except PyErr Frame :=
  if data.length < 43 then .error .frameError
  else if data.take 4 ≠ MAGIC then .error .frameError
  else if data.getD 4 0 ≠ VERSION then .error .frameError
  else if data.length ≠ 39 + rawPayloadLen data + 4 then .error .frameError
  else if crc32 (data.take 39 ++ (data.drop 39).take (rawPayloadLen data)) % 2 ^ 32
          ≠ beDecode (data.drop (39 + rawPayloadLen data)) then .error .frameError
  else
    match FrameType.ofNat? (data.getD 5 0) with
    | some ft =>
      .ok { frame_type := ft
            session_id := (data.drop 7).take 16
            superblock_id := beDecode ((data.drop 23).take 4)
            block_id := beDecode ((data.drop 27).take 4)
            total_blocks := beDecode ((data.drop 31).take 4)
            blocks_in_super := beDecode ((data.drop 35).take 2)
            flags := data.getD 6 0
            payload := (data.drop 39).take (rawPayloadLen data) }
    | none => .error .valueError

/-- `Frame.to_b64`: serialise then base64-encode (ASCII codes). -/
def Frame.to_b64 (f : Frame) : Except PyErr (List Nat) :=
  (f.to_bytes).map b64encode

/-- `Frame.from_b64`: strict base64 decode (failure becomes `FrameError`),
then parse the raw buffer. -/
def Frame.from_b64 (s : List Nat) : Except PyErr Frame :=
  match b64decode s with
  | none => .error .frameError
  | some raw => Frame.from_bytes raw

/-! ## Frame codec round trip -/

theorem take_drop_chunk (pre mid post : List Nat) (n k : Nat)
    (hpre : pre.length = n) (hmid : mid.length = k) :
    ((pre ++ (mid ++ post)).drop n).take k = mid := by
  rw [List.drop_left' hpre, List.take_left' hmid]

theorem drop_step (l rest : List Nat) (seg : List Nat) (n k : Nat)
    (h : l.drop n = seg ++ rest) (hseg : seg.length = k) :
    l.drop (n + k) = rest := by
  rw [← List.drop_drop, h, List.drop_left' hseg]

theorem ofNat_toNat (ft : FrameType) : FrameType.ofNat? ft.toNat = some ft := by
  cases ft <;> rfl

theorem from_bytes_to_bytes (f : Frame)
    (hsid : f.session_id.length = 16) (hp : f.payload.length ≤ 65535)
    (hfl : f.flags < 256) (hsb : f.superblock_id < 2 ^ 32)
    (hbid : f.block_id < 2 ^ 32) (htb : f.total_blocks < 2 ^ 32)
    (hbis : f.blocks_in_super < 2 ^ 16) :
    Frame.from_bytes
      (frameHeader f ++ f.payload ++ beBytes 4 (crc32 (frameHeader f ++ f.payload) % 2 ^ 32))
      = .ok f := by
  set pay := f.payload with hpay
  set c4 := beBytes 4 (crc32 (frameHeader f ++ f.payload) % 2 ^ 32) with hc4
  set s4 := beBytes 4 f.superblock_id with hs4
  set b4 := beBytes 4 f.block_id with hb4
  set t4 := beBytes 4 f.total_blocks with ht4
  set i2 := beBytes 2 f.blocks_in_super with hi2
  set p2 := beBytes 2 f.payload.length with hp2
  set data := frameHeader f ++ f.payload ++ c4 with hdataDef
  have hflags : f.flags % 256 = f.flags := Nat.mod_eq_of_lt hfl
  have hdata : data = 81 :: 82 :: 67 :: 77 :: 1 :: f.frame_type.toNat :: f.flags % 256 ::
      (f.session_id ++ (s4 ++ (b4 ++ (t4 ++ (i2 ++ (p2 ++ (pay ++ c4))))))) := by
    simp [hdataDef, frameHeader, MAGIC, VERSION]
  have hHdrLen : (frameHeader f).length = 39 := by
    simp [frameHeader, MAGIC, VERSION, beBytes_length, hsid]
  have hlen : data.length = 39 + pay.length + 4 := by
    simp only [hdataDef, List.length_append, hHdrLen, hc4, beBytes_length]
  have d7 : data.drop 7 = f.session_id ++ (s4 ++ (b4 ++ (t4 ++ (i2 ++ (p2 ++ (pay ++ c4)))))) := by
    rw [hdata]; rfl
  have d23 : data.drop 23 = s4 ++ (b4 ++ (t4 ++ (i2 ++ (p2 ++ (pay ++ c4))))) :=
    drop_step data _ f.session_id 7 16 d7 hsid
  have d27 : data.drop 27 = b4 ++ (t4 ++ (i2 ++ (p2 ++ (pay ++ c4)))) :=
    drop_step data _ s4 23 4 d23 (beBytes_length 4 _)
  have d31 : data.drop 31 = t4 ++ (i2 ++ (p2 ++ (pay ++ c4))) :=
    drop_step data _ b4 27 4 d27 (beBytes_length 4 _)
  have d35 : data.drop 35 = i2 ++ (p2 ++ (pay ++ c4)) :=
    drop_step data _ t4 31 4 d31 (beBytes_length 4 _)
  have d37 : data.drop 37 = p2 ++ (pay ++ c4) :=
    drop_step data _ i2 35 2 d35 (beBytes_length 2 _)
  have d39 : data.drop 39 = pay ++ c4 :=
    drop_step data _ p2 37 2 d37 (beBytes_length 2 _)
  have hplen : rawPayloadLen data = pay.length := by
    rw [rawPayloadLen, d37, List.take_left' (beBytes_length 2 _)]
    exact beDecode_beBytes 2 _ (by rw [hpay] at hp; norm_num at hp ⊢; omega)
  have hheader : data.take 39 = frameHeader f := by
    rw [hdataDef, List.append_assoc]
    exact List.take_left' hHdrLen
  have hpayload : (data.drop 39).take pay.length = pay := by
    rw [d39]; exact List.take_left' rfl
  have hcrcraw : data.drop (39 + pay.length) = c4 := drop_step data _ pay 39 pay.length d39 rfl
  have hcrc : beDecode (data.drop (39 + pay.length)) =
      crc32 (frameHeader f ++ f.payload) % 2 ^ 32 := by
    rw [hcrcraw, hc4]
    exact beDecode_beBytes 4 _ (by norm_num [Nat.mod_lt])
  rw [Frame.from_bytes]
  rw [hplen]
  rw [if_neg (by omega)]
  have ht4' : data.take 4 = MAGIC := by rw [hdata]; rfl
  rw [if_neg (by rw [ht4']; simp)]
  have hg4 : data.getD 4 0 = 1 := by rw [hdata]; rfl
  rw [if_neg (by rw [hg4]; simp [VERSION])]
  rw [if_neg (by omega)]
  have hg5 : data.getD 5 0 = f.frame_type.toNat := by rw [hdata]; rfl
  have hg6 : data.getD 6 0 = f.flags % 256 := by rw [hdata]; rfl
  rw [if_neg (by
    rw [hpayload, hheader, hcrc]
    simp)]
  rw [hg5, ofNat_toNat]
  have hsidex : (data.drop 7).take 16 = f.session_id := by
    rw [d7]; exact List.take_left' hsid
  have hsb' : beDecode ((data.drop 23).take 4) = f.superblock_id := by
    rw [d23, List.take_left' (beBytes_length 4 _)]
    exact beDecode_beBytes 4 _ (by norm_num at hsb ⊢; omega)
  have hbid' : beDecode ((data.drop 27).take 4) = f.block_id := by
    rw [d27, List.take_left' (beBytes_length 4 _)]
    exact beDecode_beBytes 4 _ (by norm_num at hbid ⊢; omega)
  have htb' : beDecode ((data.drop 31).take 4) = f.total_blocks := by
    rw [d31, List.take_left' (beBytes_length 4 _)]
    exact beDecode_beBytes 4 _ (by norm_num at htb ⊢; omega)
  have hbis' : beDecode ((data.drop 35).take 2) = f.blocks_in_super := by
    rw [d35, List.take_left' (beBytes_length 2 _)]
    exact beDecode_beBytes 2 _ (by norm_num at hbis ⊢; omega)
  rw [hsidex, hsb', hbid', htb', hbis', hg6, hflags, hpayload]

theorem toNat_lt (ft : FrameType) : ft.toNat < 256 := by
  cases ft <;> simp [FrameType.toNat]

theorem frameHeader_bytes_lt (f : Frame) (hsidb : ∀ b ∈ f.session_id, b < 256) :
    ∀ b ∈ frameHeader f, b < 256 := by
  unfold frameHeader
  simp only [List.append_assoc, List.forall_mem_append]
  refine ⟨by decide, by decide, ?_, ?_, hsidb,
    beBytes_lt 4 _, beBytes_lt 4 _, beBytes_lt 4 _, beBytes_lt 2 _, beBytes_lt 2 _⟩
  · intro b hb
    rw [List.mem_singleton] at hb
    subst hb
    exact toNat_lt _
  · intro b hb
    rw [List.mem_singleton] at hb
    subst hb
    exact Nat.mod_lt _ (by norm_num)

theorem to_bytes_ok (f : Frame)
    (hsid : f.session_id.length = 16) (hp : f.payload.length ≤ 65535)
    (hsb : f.superblock_id < 2 ^ 32) (hbid : f.block_id < 2 ^ 32)
    (htb : f.total_blocks < 2 ^ 32) (hbis : f.blocks_in_super < 2 ^ 16) :
    f.to_bytes =
      .ok (frameHeader f ++ f.payload ++ beBytes 4 (crc32 (frameHeader f ++ f.payload) % 2 ^ 32)) := by
  rw [Frame.to_bytes]
  rw [if_neg (by omega), if_neg (by omega), if_neg (by push_neg; exact ⟨hsb, hbid, htb, hbis⟩)]

/-- C2: for every valid frame (16-byte session id, payload of at most 65535
bytes, flags a byte, ids within their wire ranges), base64 decoding the
base64 encoding of the serialised frame parses back to an equal frame. -/
theorem c2_frame_roundtrip (f : Frame)
    (hsid : f.session_id.length = 16) (hsidb : ∀ b ∈ f.session_id, b < 256)
    (hp : f.payload.length ≤ 65535) (hpb : ∀ b ∈ f.payload, b < 256)
    (hfl : f.flags < 256) (hsb : f.superblock_id < 2 ^ 32)
    (hbid : f.block_id < 2 ^ 32) (htb : f.total_blocks < 2 ^ 32)
    (hbis : f.blocks_in_super < 2 ^ 16) :
    (f.to_b64).bind Frame.from_b64 = Except.ok f := by
  rw [Frame.to_b64, to_bytes_ok f hsid hp hsb hbid htb hbis]
  show Frame.from_b64 (b64encode _) = Except.ok f
  rw [Frame.from_b64]
  have hlt : ∀ b ∈ frameHeader f ++ f.payload ++
      beBytes 4 (crc32 (frameHeader f ++ f.payload) % 2 ^ 32), b < 256 := by
    intro b hb
    simp only [List.append_assoc, List.mem_append] at hb
    rcases hb with h | h | h
    · exact frameHeader_bytes_lt f hsidb b h
    · exact hpb b h
    · exact beBytes_lt _ _ b h
  rw [b64_roundtrip _ _ le_rfl hlt]
  exact from_bytes_to_bytes f hsid hp hfl hsb hbid htb hbis

/-- Concrete valid frame used by witnesses. -/
def fr0 : Frame :=
  { frame_type := .DATA
    session_id := List.replicate 16 0
    superblock_id := 0
    block_id := 0
    total_blocks := 1
    blocks_in_super := 1
    flags := 0
    payload := [7, 8] }

theorem c2_frame_roundtrip_witness :
    (fr0.to_b64).bind Frame.from_b64 = Except.ok fr0 :=
  c2_frame_roundtrip fr0 (by decide) (by decide) (by decide) (by decide)
    (by decide) (by decide) (by decide) (by decide) (by decide)

/-- C10: with all integer fields inside their wire ranges, `Frame.to_bytes`
raises `FrameError` exactly when the session id is not 16 bytes or the
payload exceeds 65535 bytes, and otherwise returns the serialised frame. -/
theorem c10_to_bytes_errors (f : Frame)
    (hsb : f.superblock_id < 2 ^ 32) (hbid : f.block_id < 2 ^ 32)
    (htb : f.total_blocks < 2 ^ 32) (hbis : f.blocks_in_super < 2 ^ 16) :
    (f.to_bytes = Except.error PyErr.frameError ↔
      (f.session_id.length ≠ 16 ∨ f.payload.length > 65535)) ∧
    (f.session_id.length = 16 → f.payload.length ≤ 65535 →
      f.to_bytes = Except.ok
        (frameHeader f ++ f.payload ++ beBytes 4 (crc32 (frameHeader f ++ f.payload) % 2 ^ 32))) := by
  constructor
  · constructor
    · intro h
      by_contra hcon
      push_neg at hcon
      rw [to_bytes_ok f hcon.1 hcon.2 hsb hbid htb hbis] at h
      exact Except.noConfusion h
    · intro h
      rw [Frame.to_bytes]
      rcases h with h | h
      · rw [if_pos h]
      · by_cases h16 : f.session_id.length ≠ 16
        · rw [if_pos h16]
        · rw [if_neg h16, if_pos (by omega)]
  · intro h16 hp
    exact to_bytes_ok f h16 hp hsb hbid htb hbis

theorem c10_to_bytes_errors_witness :
    (fr0.to_bytes = Except.error PyErr.frameError ↔
      (fr0.session_id.length ≠ 16 ∨ fr0.payload.length > 65535)) ∧
    (fr0.session_id.length = 16 → fr0.payload.length ≤ 65535 →
      fr0.to_bytes = Except.ok
        (frameHeader fr0 ++ fr0.payload ++
          beBytes 4 (crc32 (frameHeader fr0 ++ fr0.payload) % 2 ^ 32))) :=
  c10_to_bytes_errors fr0 (by decide) (by decide) (by decide) (by decide)

/-! ## C7: characterisation of `from_b64` rejections -/

/-- The rejection conditions `Frame.from_bytes` checks on a raw buffer,
as the specification lists them: short buffer, wrong magic, wrong
version, inconsistent declared payload length, CRC mismatch. -/
def rawBad (raw : List Nat) : Prop :=
  raw.length < 43 ∨ raw.take 4 ≠ MAGIC ∨ raw.getD 4 0 ≠ VERSION ∨
  raw.length ≠ 39 + rawPayloadLen raw + 4 ∨
  crc32 (raw.take 39 ++ (raw.drop 39).take (rawPayloadLen raw)) % 2 ^ 32
    ≠ beDecode (raw.drop (39 + rawPayloadLen raw))

instance (raw : List Nat) : Decidable (rawBad raw) := by
  unfold rawBad
  infer_instance

/-- The spec's full list of `FrameError` conditions for `Frame.from_b64`:
the input is not strict base64, or the decoded buffer fails one of the
raw-buffer checks. -/
def listedConds (s : List Nat) : Prop :=
  match b64decode s with
  | none => True
  | some raw => rawBad raw

instance (s : List Nat) : Decidable (listedConds s) := by
  unfold listedConds
  rcases b64decode s with _ | raw
  · exact inferInstanceAs (Decidable True)
  · exact inferInstanceAs (Decidable (rawBad raw))

theorem from_bytes_cases (raw : List Nat) :
    (Frame.from_bytes raw = Except.error PyErr.frameError ↔ rawBad raw) ∧
    (¬ rawBad raw →
      ((FrameType.ofNat? (raw.getD 5 0)).isSome →
        ∃ fr, Frame.from_bytes raw = Except.ok fr) ∧
      (FrameType.ofNat? (raw.getD 5 0) = none →
        Frame.from_bytes raw = Except.error PyErr.valueError)) := by
  unfold Frame.from_bytes rawBad
  split_ifs with h1 h2 h3 h4 h5
  · exact ⟨iff_of_true rfl (by tauto), fun hnot => absurd (by tauto) hnot⟩
  · exact ⟨iff_of_true rfl (by tauto), fun hnot => absurd (by tauto) hnot⟩
  · exact ⟨iff_of_true rfl (by tauto), fun hnot => absurd (by tauto) hnot⟩
  · exact ⟨iff_of_true rfl (by tauto), fun hnot => absurd (by tauto) hnot⟩
  · exact ⟨iff_of_true rfl (by tauto), fun hnot => absurd (by tauto) hnot⟩
  · rcases hft : FrameType.ofNat? (raw.getD 5 0) with _ | ft
    · constructor
      · exact iff_of_false (by simp) (by tauto)
      · intro _
        constructor
        · intro hsome
          simp at hsome
        · intro _
          rfl
    · constructor
      · exact iff_of_false (by simp) (by tauto)
      · intro _
        constructor
        · intro _
          exact ⟨_, rfl⟩
        · intro hnone
          exact Option.noConfusion hnone

/-- C7 (amended): `Frame.from_b64` raises `FrameError` exactly when one of
the listed conditions holds (non-strict base64, short buffer, bad magic,
bad version, inconsistent length, CRC mismatch); when none holds it
returns a Frame if the frame-type byte is a defined type, but raises
`ValueError` (not `FrameError`) if that byte is undefined. -/
theorem c7_from_b64_errors (s : List Nat) :
    (Frame.from_b64 s = Except.error PyErr.frameError ↔ listedConds s) ∧
    (∀ raw, b64decode s = some raw → ¬ rawBad raw →
      ((FrameType.ofNat? (raw.getD 5 0)).isSome →
        ∃ fr, Frame.from_b64 s = Except.ok fr) ∧
      (FrameType.ofNat? (raw.getD 5 0) = none →
        Frame.from_b64 s = Except.error PyErr.valueError)) := by
  unfold Frame.from_b64 listedConds
  cases hdec : b64decode s with
  | none => simp
  | some raw =>
    constructor
    · exact (from_bytes_cases raw).1
    · intro raw2 hraw2 hgood
      have heq : raw = raw2 := Option.some_injective _ hraw2
      subst heq
      exact (from_bytes_cases _).2 hgood

/-- Serialised bytes of the concrete valid frame `fr0`. -/
def fr0bytes : List Nat :=
  frameHeader fr0 ++ fr0.payload ++ beBytes 4 (crc32 (frameHeader fr0 ++ fr0.payload) % 2 ^ 32)

/-- Base64 text of `fr0bytes`. -/
def fr0b64 : List Nat := b64encode fr0bytes

theorem c7_from_b64_errors_witness :
    ∃ fr, Frame.from_b64 fr0b64 = Except.ok fr :=
  ((c7_from_b64_errors fr0b64).2 fr0bytes (by decide) (by decide)).1 (by decide)

/-- A 39-byte header whose frame-type byte is 4 (undefined) but whose
magic, version and declared payload length are all valid. -/
def c7hdr : List Nat :=
  [81, 82, 67, 77, 1, 4, 0] ++ List.replicate 16 0 ++ beBytes 4 0 ++ beBytes 4 0
    ++ beBytes 4 0 ++ beBytes 2 0 ++ beBytes 2 0

/-- The raw buffer of that header with a correct CRC appended. -/
def c7raw : List Nat := c7hdr ++ beBytes 4 (crc32 c7hdr % 2 ^ 32)

/-- Its base64 encoding: a string on which none of the listed `FrameError`
conditions holds, yet `from_b64` does not return a Frame. -/
def c7str : List Nat := b64encode c7raw

/-- C7 counterexample: on `c7str` no listed condition holds, yet
`Frame.from_b64` raises `ValueError` instead of returning a Frame. -/
theorem c7_counterexample :
    ¬ listedConds c7str ∧ Frame.from_b64 c7str = Except.error PyErr.valueError := by
  constructor
  · decide
  · decide

/-! ## XOR FEC (model of `qrcode_com/fec.py`) -/

/-- `xor_parity_block`: byte-wise XOR of all blocks, each right-zero-padded
to the maximum block length (empty input gives the empty block). -/
def xorParityBlock (blocks : List (List Nat)) : List Nat :=
  if blocks.isEmpty then []
  else
    blocks.foldl (fun parity block => zipXor parity (padTo block (maxLen blocks)))
      (List.replicate (maxLen blocks) 0)

/-- `generate_parity_blocks`: `count` identical copies of the parity. -/
def generateParityBlocks (blocks : List (List Nat)) (count : Nat) : List (List Nat) :=
  List.replicate count (xorParityBlock blocks)

/-- `recover_single_missing`: XOR the known blocks with one parity copy;
impossible (`None`) unless exactly one block is missing and the parity
is non-empty. -/
def recoverSingleMissing (known_blocks : List (List Nat)) (parity_block : List Nat)
    (missing_count : Nat) : Option (List Nat) :=
  if missing_count ≠ 1 ∨ parity_block.isEmpty then none
  else some (xorParityBlock (known_blocks ++ [parity_block]))

/-! ## Session metadata (model of `onewayqr/models.py`) -/

/-- The session descriptor (`SessionMetadata` dataclass). Strings
(`sha256`, `packaging`, `compression`, `root_name`) are byte strings;
the session id is its 16-byte value. -/
structure SessionMetadata where
  session_id : List Nat
  total_size : Nat
  chunk_size : Nat
  total_chunks : Nat
  superblock_data : Nat
  redundancy : Nat
  sha256 : List Nat
  packaging : List Nat
  compression : List Nat
  root_name : List Nat
  file_count : Nat
deriving DecidableEq, Repr

/-- `estimate_total_chunks`: ceiling division (requires `chunk_size > 0`
in Python, which raises `ZeroDivisionError` otherwise). -/
def estimateTotalChunks (total_size chunk_size : Nat) : Nat :=
  (total_size + chunk_size - 1) / chunk_size

/-- `build_metadata` (sender.py): derive `total_chunks` and assemble the
session descriptor. -/
def buildMetadata (payload_size chunk_size superblock_data redundancy : Nat)
    (sha256 packaging compression root_name : List Nat) (file_count : Nat)
    (session_id : List Nat) : SessionMetadata :=
  { session_id := session_id
    total_size := payload_size
    chunk_size := chunk_size
    total_chunks := estimateTotalChunks payload_size chunk_size
    superblock_data := superblock_data
    redundancy := redundancy
    sha256 := sha256
    packaging := packaging
    compression := compression
    root_name := root_name
    file_count := file_count }

/-! ### Header payload serialisation.

Modelled from the spec: the header payload is a UTF-8 JSON encoding of the
SessionMetadata (`json.dumps(meta.to_dict())` on send,
`SessionMetadata.from_dict(json.loads(...))` on receive; both live in
commodity libraries outside the transport core). The model keeps the two
properties the receiver relies on: decoding inverts encoding, and decoding
is a partial function of the payload bytes alone (unparseable payloads are
dropped). Numbers are self-delimiting byte sequences, strings are
length-prefixed. -/

/-- Little-endian base-255 digits of a natural, by fuelled structural
recursion (the fuel `n` always suffices, see `natDigits_eq`). -/
def natDigits : Nat → Nat → List Nat
  | _, 0 => []
  | 0, _ + 1 => []
  | fuel + 1, n + 1 => (n + 1) % 255 :: natDigits fuel ((n + 1) / 255)

theorem natDigits_eq (fuel : Nat) :
    ∀ n : Nat, n ≤ fuel → natDigits fuel n = Nat.digits 255 n := by
  induction fuel with
  | zero =>
    intro n h
    have : n = 0 := by omega
    subst this
    show ([] : List Nat) = Nat.digits 255 0
    rw [Nat.digits_zero]
  | succ fuel ih =>
    intro n h
    cases n with
    | zero =>
      show ([] : List Nat) = Nat.digits 255 0
      rw [Nat.digits_zero]
    | succ k =>
      show (k + 1) % 255 :: natDigits fuel ((k + 1) / 255) = _
      rw [Nat.digits_def' (by norm_num : 1 < 255) (Nat.succ_pos k)]
      rw [ih ((k + 1) / 255) (by
        have := Nat.div_lt_self (Nat.succ_pos k) (by norm_num : 1 < 255)
        omega)]

/-- Self-delimiting encoding of an unbounded natural: little-endian
base-255 digits followed by a 255 terminator byte. -/
def natEnc (n : Nat) : List Nat := natDigits n n ++ [255]

/-- Parse a `natEnc` number, returning the value and the remaining bytes. -/
def natDec : List Nat → Option (Nat × List Nat)
  | [] => none
  | b :: rest =>
    if b = 255 then some (0, rest)
    else
      match natDec rest with
      | some (v, r) => some (b + 255 * v, r)
      | none => none

/-- Length-prefixed encoding of a byte string. -/
def bytesEnc (b : List Nat) : List Nat := natEnc b.length ++ b

/-- Parse a `bytesEnc` byte string. -/
def bytesDec (l : List Nat) : Option (List Nat × List Nat) :=
  match natDec l with
  | some (n, r) => if r.length < n then none else some (r.take n, r.drop n)
  | none => none

/-- Serialise a session descriptor (model of `json.dumps(meta.to_dict())`). -/
def metaEncode (m : SessionMetadata) : List Nat :=
  bytesEnc m.session_id ++ natEnc m.total_size ++ natEnc m.chunk_size
    ++ natEnc m.total_chunks ++ natEnc m.superblock_data ++ natEnc m.redundancy
    ++ bytesEnc m.sha256 ++ bytesEnc m.packaging ++ bytesEnc m.compression
    ++ bytesEnc m.root_name ++ natEnc m.file_count

/-- Parse a session descriptor from a header payload (model of
`SessionMetadata.from_dict(json.loads(...))`; `none` models any parse
exception, which the receiver swallows). -/
def metaDecode (l : List Nat) : Option SessionMetadata :=
  match bytesDec l with
  | none => none
  | some (sid, r1) =>
  match natDec r1 with
  | none => none
  | some (ts, r2) =>
  match natDec r2 with
  | none => none
  | some (cs, r3) =>
  match natDec r3 with
  | none => none
  | some (tc, r4) =>
  match natDec r4 with
  | none => none
  | some (sbd, r5) =>
  match natDec r5 with
  | none => none
  | some (red, r6) =>
  match bytesDec r6 with
  | none => none
  | some (sha, r7) =>
  match bytesDec r7 with
  | none => none
  | some (pack, r8) =>
  match bytesDec r8 with
  | none => none
  | some (comp, r9) =>
  match bytesDec r9 with
  | none => none
  | some (root, r10) =>
  match natDec r10 with
  | none => none
  | some (fc, _) =>
    some { session_id := sid, total_size := ts, chunk_size := cs, total_chunks := tc
           superblock_data := sbd, redundancy := red, sha256 := sha, packaging := pack
           compression := comp, root_name := root, file_count := fc }

theorem natDec_digits (ds : List Nat) (rest : List Nat) (hd : ∀ d ∈ ds, d < 255) :
    natDec (ds ++ 255 :: rest) = some (Nat.ofDigits 255 ds, rest) := by
  induction ds with
  | nil => simp [natDec, Nat.ofDigits_nil]
  | cons d ds ih =>
    have hd0 : d < 255 := hd d (by simp)
    simp only [List.cons_append, natDec, if_neg (by omega : ¬ d = 255), List.append_eq]
    rw [ih (fun x hx => hd x (by simp [hx]))]
    simp [Nat.ofDigits_cons]

theorem natDec_natEnc (n : Nat) (rest : List Nat) :
    natDec (natEnc n ++ rest) = some (n, rest) := by
  unfold natEnc
  rw [natDigits_eq n n (Nat.le_refl n)]
  rw [List.append_assoc, List.singleton_append,
    natDec_digits _ _ (fun d hd => Nat.digits_lt_base (by norm_num) hd),
    Nat.ofDigits_digits]

theorem bytesDec_bytesEnc (b : List Nat) (rest : List Nat) :
    bytesDec (bytesEnc b ++ rest) = some (b, rest) := by
  unfold bytesDec bytesEnc
  rw [List.append_assoc, natDec_natEnc]
  simp only [if_neg (by simp : ¬ (b ++ rest).length < b.length)]
  rw [List.take_left' rfl, List.drop_left' rfl]

theorem metaDecode_metaEncode (m : SessionMetadata) :
    metaDecode (metaEncode m) = some m := by
  have h11 : natDec (natEnc m.file_count) = some (m.file_count, []) := by
    have h := natDec_natEnc m.file_count []
    rwa [List.append_nil] at h
  unfold metaDecode metaEncode
  simp only [List.append_assoc, bytesDec_bytesEnc, natDec_natEnc, h11]

/-! ## Chunker (model of `iter_chunks`) -/

/-- `iter_chunks(path, chunk_size)`: successive `chunk_size`-byte blocks,
the final block possibly shorter. With `chunk_size = 0` the Python
generator stops immediately (read(0) returns the empty string). -/
def chunkList (cs : Nat) (l : List Nat) : List (List Nat) :=
  if h : cs = 0 ∨ l = [] then []
  else l.take cs :: chunkList cs (l.drop cs)
termination_by l.length
decreasing_by
  push_neg at h
  have hl : 0 < l.length := List.length_pos.mpr h.2
  simp only [List.length_drop]
  omega

/-- The sender's superblock grouping: `superblock_data` chunks at a time
(an empty read ends the session; `superblock_data = 0` reads nothing and
ends immediately). -/
def groupN (n : Nat) (l : List (List Nat)) : List (List (List Nat)) :=
  if h : n = 0 ∨ l = [] then []
  else l.take n :: groupN n (l.drop n)
termination_by l.length
decreasing_by
  push_neg at h
  have hl : 0 < l.length := List.length_pos.mpr h.2
  simp only [List.length_drop]
  omega

/-! ## Sender (model of `onewayqr/sender.py`) -/

/-- `_header_frame`: the SESSION_HEADER frame of a session. -/
def headerFrame (m : SessionMetadata) : Frame :=
  { frame_type := .SESSION_HEADER
    session_id := m.session_id
    superblock_id := 0
    block_id := 0
    total_blocks := m.total_chunks
    blocks_in_super := 0
    flags := 0
    payload := metaEncode m }

/-- The frames emitted for one superblock: its data blocks in order with
consecutive block ids, then `redundancy` identical FEC frames whose block
ids continue the numbering. -/
def superFrames (m : SessionMetadata) (sb baseId : Nat) (blocks : List (List Nat)) :
    List Frame :=
  (List.range blocks.length).map (fun i =>
    { frame_type := .DATA
      session_id := m.session_id
      superblock_id := sb
      block_id := baseId + i
      total_blocks := m.total_chunks
      blocks_in_super := blocks.length
      flags := 0
      payload := blocks.getD i [] })
  ++ (List.range (generateParityBlocks blocks m.redundancy).length).map (fun i =>
    { frame_type := .FEC
      session_id := m.session_id
      superblock_id := sb
      block_id := baseId + blocks.length + i
      total_blocks := m.total_chunks
      blocks_in_super := blocks.length
      flags := 0
      payload := (generateParityBlocks blocks m.redundancy).getD i [] })

/-- The main loop of `generate_frames` over the superblock grouping:
emit each superblock's frames, then a periodic header when the data
block counter is a multiple of `header_interval`. -/
def genLoop (m : SessionMetadata) (header_interval : Nat) :
    Nat → Nat → List (List (List Nat)) → List Frame
  | _, _, [] => []
  | sb, bid, blocks :: rest =>
    superFrames m sb bid blocks
      ++ (if 0 < header_interval ∧ (bid + blocks.length) % header_interval = 0
          then [headerFrame m] else [])
      ++ genLoop m header_interval (sb + 1) (bid + blocks.length) rest

/-- `generate_frames`: `max 1 header_repeat` header copies, then the
superblock loop over the chunked payload. -/
def generateFrames (m : SessionMetadata) (payload : List Nat)
    (header_repeat header_interval : Nat) : List Frame :=
  List.replicate (max 1 header_repeat) (headerFrame m)
    ++ genLoop m header_interval 0 0 (groupN m.superblock_data (chunkList m.chunk_size payload))

/-! ## Receiver (model of `qrcode_com/receiver.py`) -/

/-- First-match association lookup (Python dict access by key). -/
def alookup {α : Type} (k : Nat) : List (Nat × α) → Option α
  | [] => none
  | (k2, v) :: rest => if k2 = k then some v else alookup k rest

/-- Receiver state: adopted metadata and session id, confirmed data
blocks (`block_id → bytes`), parity payloads per superblock, and the
header counter. The maps are insertion-ordered association lists with
unique keys, as Python dicts are. -/
structure Reassembler where
  meta : Option SessionMetadata
  session_id : Option (List Nat)
  data_blocks : List (Nat × List Nat)
  parity_blocks : List (Nat × List (List Nat))
  headers_seen : Nat
deriving DecidableEq, Repr

/-- A fresh `Reassembler()`. -/
def initReassembler : Reassembler :=
  { meta := none, session_id := none, data_blocks := [], parity_blocks := [], headers_seen := 0 }

/-- `dict.setdefault(k, []).append(v)` on the parity map. -/
def parityAppend (k : Nat) (v : List Nat) (l : List (Nat × List (List Nat))) :
    List (Nat × List (List Nat)) :=
  match alookup k l with
  | none => l ++ [(k, [v])]
  | some _ => l.map (fun e => if e.1 = k then (e.1, e.2 ++ [v]) else e)

/-- `_expected_len`: `chunk_size` for every block but the session's last,
which gets the tail length (computed over ℤ, as Python ints). -/
def expectedLen (m : SessionMetadata) (block_id : Nat) : Int :=
  if (block_id : Int) < (m.total_chunks : Int) - 1 then (m.chunk_size : Int)
  else (m.total_size : Int) - (m.chunk_size : Int) * ((m.total_chunks : Int) - 1)

/-- Python slicing `l[:n]` for a possibly negative bound. -/
def pySlice (l : List Nat) (n : Int) : List Nat :=
  if n < 0 then l.take (l.length - n.natAbs) else l.take n.toNat

/-- The python `if self.session_id and frame.session_id != self.session_id`
guard: drop the frame when a non-empty session id is adopted and differs. -/
def sessionMismatch (st : Reassembler) (f : Frame) : Prop :=
  match st.session_id with
  | some s => s ≠ [] ∧ f.session_id ≠ s
  | none => False

instance (st : Reassembler) (f : Frame) : Decidable (sessionMismatch st f) :=
  match h : st.session_id with
  | none => isFalse (by unfold sessionMismatch; rw [h]; exact id)
  | some s => decidable_of_iff (s ≠ [] ∧ f.session_id ≠ s) (by unfold sessionMismatch; rw [h])

/-- The block-id range `range(start, end)` of superblock `t`:
`start = t * superblock_data`, `end = min(start + superblock_data,
total_chunks)`. -/
def superIndices (m : SessionMetadata) (t : Nat) : List Nat :=
  List.range' (t * m.superblock_data)
    (min (t * m.superblock_data + m.superblock_data) m.total_chunks - t * m.superblock_data)

/-- The ids of the superblock's blocks not yet stored. -/
def missingIds (db : List (Nat × List Nat)) (m : SessionMetadata) (t : Nat) : List Nat :=
  (superIndices m t).filter (fun i => (alookup i db).isNone)

/-- The stored blocks of the superblock, in ascending id order. -/
def knownBlocks (db : List (Nat × List Nat)) (m : SessionMetadata) (t : Nat) :
    List (List Nat) :=
  (superIndices m t).filterMap (fun i => alookup i db)

/-- The entry `_maybe_recover` stores, if any: when the superblock has
exactly one missing id, a parity copy exists and that parity is
non-empty, the missing id mapped to the XOR of the known blocks with the
first parity copy, truncated to the expected length; otherwise nothing. -/
def recoverExtra (db : List (Nat × List Nat)) (parity : List (Nat × List (List Nat)))
    (m : SessionMetadata) (t : Nat) : List (Nat × List Nat) :=
  match missingIds db m t with
  | [] => []
  | m0 :: mrest =>
    match alookup t parity with
    | none => []
    | some [] => []
    | some (p0 :: _) =>
      match recoverSingleMissing (knownBlocks db m t) p0 (mrest.length + 1) with
      | none => []
      | some recovered => [(m0, pySlice recovered (expectedLen m m0))]

/-- `_maybe_recover`: append the recovered entry (if any) to the data
blocks; no-op without adopted metadata. -/
def maybeRecover (st : Reassembler) (superblock_id : Nat) : Reassembler :=
  match st.meta with
  | none => st
  | some m =>
    { st with data_blocks :=
        st.data_blocks ++ recoverExtra st.data_blocks st.parity_blocks m superblock_id }

/-- `_handle_header`: parse the payload (drop on failure), drop on a
session mismatch, else (re-)adopt the header. -/
def handleHeader (st : Reassembler) (f : Frame) : Reassembler :=
  match metaDecode f.payload with
  | none => st
  | some m =>
    if sessionMismatch st f then st
    else { st with meta := some m, session_id := some f.session_id,
                   headers_seen := st.headers_seen + 1 }

/-- `Reassembler.ingest`: the per-frame state machine. -/
def ingest (st : Reassembler) (f : Frame) : Reassembler :=
  if f.frame_type = .SESSION_HEADER then handleHeader st f
  else if sessionMismatch st f then st
  else
    match st.meta with
    | none => st
    | some _ =>
      if f.frame_type = .DATA then
        match alookup f.block_id st.data_blocks with
        | some _ => st
        | none =>
          maybeRecover
            { st with data_blocks := st.data_blocks ++ [(f.block_id, f.payload)] }
            f.superblock_id
      else if f.frame_type = .FEC then
        maybeRecover
          { st with parity_blocks := parityAppend f.superblock_id f.payload st.parity_blocks }
          f.superblock_id
      else st

/-- `Reassembler.is_complete`: a header was adopted and the data block
count reached `total_chunks`. -/
def isComplete (st : Reassembler) : Bool :=
  match st.meta with
  | none => false
  | some m => st.data_blocks.length ≥ m.total_chunks

/-- Collect the blocks at the given ids, failing on the first missing id. -/
def collectBlocks (db : List (Nat × List Nat)) : List Nat → Except String (List (List Nat))
  | [] => .ok []
  | i :: rest =>
    match alookup i db with
    | none => .error "Missing block"
    | some b =>
      match collectBlocks db rest with
      | .ok bs => .ok (b :: bs)
      | .error e => .error e

/-- `Reassembler.write_payload`: concatenate blocks `0, 1, …,
total_chunks - 1` (error when metadata is absent or a block is missing). -/
def writePayload (st : Reassembler) : Except String (List Nat) :=
  match st.meta with
  | none => .error "No session metadata available"
  | some m => (collectBlocks st.data_blocks (List.range m.total_chunks)).map List.flatten

/-! ## Association list and chunk lemmas -/

theorem alookup_append {α : Type} (k : Nat) (l1 l2 : List (Nat × α)) :
    alookup k (l1 ++ l2) =
      match alookup k l1 with
      | some v => some v
      | none => alookup k l2 := by
  induction l1 with
  | nil => simp [alookup]
  | cons e rest ih =>
    rcases e with ⟨k2, v⟩
    by_cases h : k2 = k
    · simp [alookup, h]
    · simp [alookup, h, ih]

theorem alookup_mem {α : Type} (k : Nat) (l : List (Nat × α)) (v : α)
    (h : alookup k l = some v) : (k, v) ∈ l := by
  induction l with
  | nil => simp [alookup] at h
  | cons e rest ih =>
    rcases e with ⟨k2, v2⟩
    by_cases hk : k2 = k
    · subst hk
      simp [alookup] at h
      simp [h]
    · simp [alookup, hk] at h
      exact List.mem_cons_of_mem _ (ih h)

theorem alookup_eq_none_iff {α : Type} (k : Nat) (l : List (Nat × α)) :
    alookup k l = none ↔ k ∉ l.map Prod.fst := by
  induction l with
  | nil => simp [alookup]
  | cons e rest ih =>
    rcases e with ⟨k2, v2⟩
    by_cases hk : k2 = k
    · subst hk
      simp [alookup]
    · have hk2 : ¬ k = k2 := fun h => hk h.symm
      simp only [alookup, if_neg hk, List.map_cons, List.mem_cons, ih]
      tauto

theorem alookup_snoc_self {α : Type} (k : Nat) (l : List (Nat × α)) (v : α)
    (h : alookup k l = none) : alookup k (l ++ [(k, v)]) = some v := by
  rw [alookup_append, h]
  simp [alookup]

theorem alookup_snoc_of_some {α : Type} (k k2 : Nat) (l : List (Nat × α)) (v v2 : α)
    (h : alookup k l = some v) : alookup k (l ++ [(k2, v2)]) = some v := by
  rw [alookup_append, h]

theorem alookup_snoc_ne {α : Type} (k k2 : Nat) (l : List (Nat × α)) (v2 : α)
    (h : k2 ≠ k) : alookup k (l ++ [(k2, v2)]) = alookup k l := by
  rw [alookup_append]
  cases hl : alookup k l with
  | some v => rfl
  | none => simp [alookup, h]

theorem filterMap_eq_map_filter (l : List Nat) (f : Nat → Option (List Nat))
    (p : Nat → Bool) (g : Nat → List Nat)
    (h : ∀ i ∈ l, (p i = true → f i = some (g i)) ∧ (p i = false → f i = none)) :
    l.filterMap f = (l.filter p).map g := by
  induction l with
  | nil => simp
  | cons x rest ih =>
    have hx := h x (by simp)
    have hrest := fun i (hi : i ∈ rest) => h i (List.mem_cons_of_mem _ hi)
    cases hp : p x with
    | true =>
      rw [List.filterMap_cons, hx.1 hp, List.filter_cons, if_pos (by simp [hp]), List.map_cons,
        ih hrest]
    | false =>
      rw [List.filterMap_cons, hx.2 hp, List.filter_cons, if_neg (by simp [hp]), ih hrest]

theorem filter_eq_self_of_forall (l : List Nat) (p : Nat → Bool)
    (h : ∀ i ∈ l, p i = true) : l.filter p = l :=
  List.filter_eq_self.mpr h


/-! ## Pointwise theory of the XOR parity -/

theorem nxor_zero (n : Nat) : Nat.xor n 0 = n := Nat.xor_zero n
theorem nzero_xor (n : Nat) : Nat.xor 0 n = n := Nat.zero_xor n
theorem nxor_assoc (a b c : Nat) : Nat.xor (Nat.xor a b) c = Nat.xor a (Nat.xor b c) :=
  Nat.xor_assoc a b c

theorem byteAt_zipXor (p q : List Nat) (hpq : p.length = q.length) (i : Nat) :
    byteAt (zipXor p q) i = Nat.xor (byteAt p i) (byteAt q i) := by
  unfold byteAt zipXor
  rcases lt_or_ge i p.length with h | h
  · rw [List.getD_eq_getElem _ _ (by simp [hpq.symm]; omega),
      List.getD_eq_getElem _ _ h, List.getD_eq_getElem _ _ (by omega)]
    exact List.getElem_zipWith
  · rw [List.getD_eq_default _ _ (by simp [hpq.symm]; omega),
      List.getD_eq_default _ _ h, List.getD_eq_default _ _ (by omega)]
    exact (nxor_zero 0).symm

theorem zipXor_length (p q : List Nat) : (zipXor p q).length = min p.length q.length := by
  simp [zipXor]

theorem foldl_max_le (l : List (List Nat)) (L : Nat) (h : ∀ b ∈ l, b.length ≤ L) :
    ∀ acc, acc ≤ L → l.foldl (fun a b => max a b.length) acc ≤ L := by
  induction l with
  | nil => intro acc hacc; simpa using hacc
  | cons y ys ih =>
    intro acc hacc
    simp only [List.foldl_cons]
    exact ih (fun b hb => h b (by simp [hb])) _ (max_le hacc (h y (by simp)))

theorem maxLen_lub (bs : List (List Nat)) (L : Nat) (h : ∀ b ∈ bs, b.length ≤ L) :
    maxLen bs ≤ L :=
  foldl_max_le bs L h 0 (Nat.zero_le L)

theorem xorFoldl_aux (L : Nat) (i : Nat) : ∀ (sub : List (List Nat)) (acc : List Nat),
    acc.length = L → (∀ b ∈ sub, b.length ≤ L) →
    (sub.foldl (fun parity block => zipXor parity (padTo block L)) acc).length = L ∧
    byteAt (sub.foldl (fun parity block => zipXor parity (padTo block L)) acc) i =
      Nat.xor (byteAt acc i) (xorFold (sub.map (fun b => byteAt b i))) := by
  intro sub
  induction sub with
  | nil =>
    intro acc hacc _
    refine ⟨hacc, ?_⟩
    simp only [List.foldl_nil, List.map_nil, xorFold, List.foldr_nil]
    exact (nxor_zero _).symm
  | cons b rest ih =>
    intro acc hacc hsub
    have hbL : b.length ≤ L := hsub b (by simp)
    have hpadlen : (padTo b L).length = L := by
      rw [padTo_length]
      omega
    have hzlen : (zipXor acc (padTo b L)).length = L := by
      rw [zipXor_length, hacc, hpadlen]
      simp
    simp only [List.foldl_cons, List.map_cons]
    have hih := ih (zipXor acc (padTo b L)) hzlen (fun x hx => hsub x (by simp [hx]))
    refine ⟨hih.1, ?_⟩
    rw [hih.2, byteAt_zipXor acc (padTo b L) (by omega) i, byteAt_padTo]
    simp only [xorFold, List.foldr_cons]
    exact nxor_assoc _ _ _

theorem byteAt_replicate_zero (L i : Nat) : byteAt (List.replicate L 0) i = 0 := by
  unfold byteAt
  rcases lt_or_ge i L with h | h
  · rw [List.getD_eq_getElem _ _ (by simpa)]
    simp
  · rw [List.getD_eq_default _ _ (by simpa)]

theorem xorParityBlock_length (bs : List (List Nat)) (h : ¬ bs.isEmpty) :
    (xorParityBlock bs).length = maxLen bs := by
  unfold xorParityBlock
  rw [if_neg h]
  exact (xorFoldl_aux (maxLen bs) 0 bs (List.replicate (maxLen bs) 0) (by simp)
    (fun b hb => maxLen_le bs b hb)).1

theorem byteAt_xorParityBlock (bs : List (List Nat)) (h : ¬ bs.isEmpty) (i : Nat) :
    byteAt (xorParityBlock bs) i = xorFold (bs.map (fun b => byteAt b i)) := by
  unfold xorParityBlock
  rw [if_neg h]
  rw [(xorFoldl_aux (maxLen bs) i bs (List.replicate (maxLen bs) 0) (by simp)
    (fun b hb => maxLen_le bs b hb)).2]
  rw [byteAt_replicate_zero]
  exact nzero_xor _

theorem xor_cancel_lemma (a b c : Nat) : (a ^^^ b) ^^^ (a ^^^ (c ^^^ b)) = c := by
  apply Nat.eq_of_testBit_eq
  intro k
  simp only [Nat.testBit_xor]
  cases a.testBit k <;> cases b.testBit k <;> cases c.testBit k <;> rfl

/-- Pointwise recovery: XOR of all blocks but one with the parity of the
whole list gives back the missing block, at every byte position. -/
theorem byteAt_xor_recover (u v : List (List Nat)) (g : List Nat) (i : Nat) :
    byteAt (xorParityBlock ((u ++ v) ++ [xorParityBlock (u ++ g :: v)])) i = byteAt g i := by
  have houter : ¬ ((u ++ v) ++ [xorParityBlock (u ++ g :: v)]).isEmpty := by simp
  have hinner : ¬ (u ++ g :: v).isEmpty := by simp
  rw [byteAt_xorParityBlock _ houter i]
  simp only [List.map_append, List.map_cons, List.map_nil]
  rw [xorFold_append, xorFold_append]
  have h1 : xorFold [byteAt (xorParityBlock (u ++ g :: v)) i] =
      byteAt (xorParityBlock (u ++ g :: v)) i := by
    simp only [xorFold, List.foldr_cons, List.foldr_nil]
    exact nxor_zero _
  rw [h1, byteAt_xorParityBlock _ hinner i]
  simp only [List.map_append, List.map_cons]
  rw [xorFold_append]
  have h2 : xorFold (byteAt g i :: v.map (fun b => byteAt b i)) =
      Nat.xor (byteAt g i) (xorFold (v.map (fun b => byteAt b i))) := by
    simp only [xorFold, List.foldr_cons]
  rw [h2]
  exact xor_cancel_lemma _ _ _

/-! ## Chunk arithmetic -/

theorem getD_map_range (l : List (List Nat)) :
    (List.range l.length).map (fun i => l.getD i []) = l := by
  apply List.ext_getElem
  · simp
  · intro i h1 h2
    simp only [List.getElem_map, List.getElem_range, List.getD_eq_getElem?_getD]
    rw [List.getElem?_eq_getElem h2]
    rfl

theorem getD_drop (l : List (List Nat)) (s i : Nat) :
    (l.drop s).getD i [] = l.getD (s + i) [] := by
  rw [List.getD_eq_getElem?_getD, List.getD_eq_getElem?_getD, List.getElem?_drop]

theorem getD_take (l : List (List Nat)) (n i : Nat) (h : i < n) :
    (l.take n).getD i [] = l.getD i [] := by
  rw [List.getD_eq_getElem?_getD, List.getD_eq_getElem?_getD, List.getElem?_take, if_pos h]

theorem chunkList_flatten (cs : Nat) (l : List Nat) (h : 0 < cs) :
    (chunkList cs l).flatten = l := by
  induction l using chunkList.induct cs with
  | case1 l h2 =>
    rw [chunkList, dif_pos h2]
    rcases h2 with h2 | h2
    · omega
    · simp [h2]
  | case2 l h2 ih =>
    rw [chunkList, dif_neg h2]
    simp [ih, List.take_append_drop]

theorem chunkList_length (cs : Nat) (l : List Nat) (h : 0 < cs) :
    (chunkList cs l).length = (l.length + cs - 1) / cs := by
  induction l using chunkList.induct cs with
  | case1 l h2 =>
    rw [chunkList, dif_pos h2]
    rcases h2 with h2 | h2
    · omega
    · subst h2
      simp only [List.length_nil]
      rw [Nat.div_eq_of_lt (by omega)]
  | case2 l h2 ih =>
    rw [chunkList, dif_neg h2]
    push_neg at h2
    have hl : 0 < l.length := List.length_pos.mpr h2.2
    simp only [List.length_cons, ih, List.length_drop]
    have hnum : l.length + cs - 1 = (l.length - 1) + cs := by omega
    rw [hnum, Nat.add_div_right _ h]
    rcases le_or_lt cs l.length with hcs | hcs
    · have heq : l.length - cs + cs - 1 = l.length - 1 := by omega
      rw [heq]
    · rw [Nat.div_eq_of_lt (by omega), Nat.div_eq_of_lt (by omega)]

theorem chunkList_getD (cs : Nat) (l : List Nat) (h : 0 < cs) (i : Nat) :
    (chunkList cs l).getD i [] = (l.drop (i * cs)).take cs := by
  induction l using chunkList.induct cs generalizing i with
  | case1 l h2 =>
    rw [chunkList, dif_pos h2]
    rcases h2 with h2 | h2
    · omega
    · simp [h2, List.getD]
  | case2 l h2 ih =>
    rw [chunkList, dif_neg h2]
    cases i with
    | zero => simp [List.getD]
    | succ i =>
      have : (l.take cs :: chunkList cs (l.drop cs)).getD (i + 1) [] =
          (chunkList cs (l.drop cs)).getD i [] := by
        simp [List.getD]
      rw [this, ih i, List.drop_drop]
      have harith : cs + i * cs = (i + 1) * cs := by ring
      rw [harith]

/-! ## Session-level invariants for reassembly -/

/-- The `i`-th chunk of the prepared payload. -/
def chunkVal (m : SessionMetadata) (P : List Nat) (i : Nat) : List Nat :=
  (chunkList m.chunk_size P).getD i []

/-- The data blocks of superblock `t`. -/
def groupAt (m : SessionMetadata) (P : List Nat) (t : Nat) : List (List Nat) :=
  ((chunkList m.chunk_size P).drop (t * m.superblock_data)).take m.superblock_data

/-- The parity of superblock `t`. -/
def parityVal (m : SessionMetadata) (P : List Nat) (t : Nat) : List Nat :=
  xorParityBlock (groupAt m P t)

/-- Consistency of a session descriptor with its payload: positive chunk
and superblock sizes (the operator surface rejects the rest) and the
derived size fields. -/
def SessionOK (m : SessionMetadata) (P : List Nat) : Prop :=
  0 < m.chunk_size ∧ 0 < m.superblock_data ∧ m.total_size = P.length ∧
  m.total_chunks = (chunkList m.chunk_size P).length

/-- Frames a sender can emit for the session: its header, a DATA frame
carrying the right chunk, or a FEC frame carrying the right parity. -/
def GoodFrame (m : SessionMetadata) (P : List Nat) (f : Frame) : Prop :=
  f = headerFrame m ∨
  (f.frame_type = .DATA ∧ f.session_id = m.session_id ∧ f.block_id < m.total_chunks ∧
    f.payload = chunkVal m P f.block_id) ∨
  (f.frame_type = .FEC ∧ f.session_id = m.session_id ∧
    f.payload = parityVal m P f.superblock_id)

/-- Stored data blocks are in range and carry the right chunk. -/
def dataOK (m : SessionMetadata) (P : List Nat) (st : Reassembler) : Prop :=
  ∀ e ∈ st.data_blocks, e.1 < m.total_chunks ∧ e.2 = chunkVal m P e.1

/-- Stored parity payloads carry the right parity. -/
def parityOK (m : SessionMetadata) (P : List Nat) (st : Reassembler) : Prop :=
  ∀ e ∈ st.parity_blocks, ∀ p ∈ e.2, p = parityVal m P e.1

/-- Data block keys are unique (a Python dict invariant). -/
def keysNodup (st : Reassembler) : Prop := (st.data_blocks.map Prod.fst).Nodup

/-- The receiver invariant while reassembling the session. -/
def StInv (m : SessionMetadata) (P : List Nat) (st : Reassembler) : Prop :=
  st.meta = some m ∧ st.session_id = some m.session_id ∧
  dataOK m P st ∧ keysNodup st ∧ parityOK m P st

theorem maybeRecover_shape (st : Reassembler) (t : Nat) :
    (maybeRecover st t).meta = st.meta ∧ (maybeRecover st t).session_id = st.session_id ∧
    (maybeRecover st t).parity_blocks = st.parity_blocks ∧
    (maybeRecover st t).headers_seen = st.headers_seen ∧
    ∃ extra, (maybeRecover st t).data_blocks = st.data_blocks ++ extra := by
  unfold maybeRecover
  cases hmeta : st.meta with
  | none => exact ⟨hmeta, rfl, rfl, rfl, [], by simp⟩
  | some m =>
    exact ⟨rfl, rfl, rfl, rfl, recoverExtra st.data_blocks st.parity_blocks m t, rfl⟩

theorem superIndices_mem (m : SessionMetadata) (t i : Nat) :
    i ∈ superIndices m t ↔ t * m.superblock_data ≤ i ∧
      i < min (t * m.superblock_data + m.superblock_data) m.total_chunks := by
  unfold superIndices
  rw [List.mem_range'_1]
  omega

theorem range'_split (s n j : Nat) (hj : j < n) :
    List.range' s n = List.range' s j ++ (s + j) :: List.range' (s + j + 1) (n - j - 1) := by
  have h1 := List.range'_append s j (n - j) 1
  simp only [Nat.one_mul] at h1
  have h2 : n - j + j = n := by omega
  rw [h2] at h1
  rw [← h1]
  congr 1
  have h3 : n - j = (n - j - 1) + 1 := by omega
  rw [h3]
  simp [List.range']

theorem range'_filter_ne (s n j : Nat) (hj : j < n) :
    (List.range' s n).filter (fun i => decide (¬ i = s + j)) =
      List.range' s j ++ List.range' (s + j + 1) (n - j - 1) := by
  rw [range'_split s n j hj, List.filter_append, List.filter_cons]
  rw [if_neg (by simp)]
  rw [filter_eq_self_of_forall _ _ (by
    intro x hx
    rw [List.mem_range'_1] at hx
    simp only [decide_eq_true_eq]
    omega)]
  rw [filter_eq_self_of_forall _ _ (by
    intro x hx
    rw [List.mem_range'_1] at hx
    simp only [decide_eq_true_eq]
    omega)]

theorem drop_take_map (l : List (List Nat)) (s n : Nat) :
    (l.drop s).take n = (List.range' s (min (s + n) l.length - s)).map (fun i => l.getD i []) := by
  apply List.ext_getElem
  · simp only [List.length_take, List.length_drop, List.length_map, List.length_range']
    omega
  · intro i h1 h2
    simp only [List.length_take, List.length_drop] at h1
    simp only [List.length_map, List.length_range'] at h2
    rw [List.getElem_take, List.getElem_drop]
    simp only [List.getElem_map, List.getElem_range', Nat.one_mul]
    rw [List.getD_eq_getElem _ _ (by omega)]

theorem ceil_le (a cs : Nat) : cs * ((a + cs - 1) / cs) ≤ a + cs - 1 :=
  Nat.mul_div_le _ _

theorem le_ceil_mul (a cs : Nat) (hcs : 0 < cs) : a ≤ ((a + cs - 1) / cs) * cs := by
  have hmod := Nat.div_add_mod (a + cs - 1) cs
  have hr := Nat.mod_lt (a + cs - 1) hcs
  have hc : ((a + cs - 1) / cs) * cs = cs * ((a + cs - 1) / cs) := Nat.mul_comm _ _
  omega

theorem chunkVal_length (m : SessionMetadata) (P : List Nat) (hses : SessionOK m P) (i : Nat) :
    (chunkVal m P i).length = min m.chunk_size (P.length - i * m.chunk_size) := by
  unfold chunkVal
  rw [chunkList_getD _ _ hses.1]
  simp [List.length_take, List.length_drop]

theorem htc_div (m : SessionMetadata) (P : List Nat) (hses : SessionOK m P) :
    m.total_chunks = (P.length + m.chunk_size - 1) / m.chunk_size := by
  rw [hses.2.2.2, chunkList_length _ _ hses.1]

theorem chunk_full_length (m : SessionMetadata) (P : List Nat) (hses : SessionOK m P)
    (i : Nat) (hi : i + 1 < m.total_chunks) :
    (chunkVal m P i).length = m.chunk_size := by
  rw [chunkVal_length m P hses]
  have htc := htc_div m P hses
  have h1 := ceil_le P.length m.chunk_size
  rw [← htc] at h1
  have h2 : m.chunk_size * (i + 2) ≤ m.chunk_size * m.total_chunks :=
    Nat.mul_le_mul_left _ (by omega)
  have h3 : m.chunk_size * (i + 2) = m.chunk_size * i + 2 * m.chunk_size := by ring
  have h4 : i * m.chunk_size = m.chunk_size * i := Nat.mul_comm _ _
  have hcs := hses.1
  omega

theorem chunk_last_length (m : SessionMetadata) (P : List Nat) (hses : SessionOK m P)
    (i : Nat) (hi : i < m.total_chunks) (hlast : ¬ (i + 1 < m.total_chunks)) :
    (chunkVal m P i).length = P.length - i * m.chunk_size ∧
      i * m.chunk_size < P.length := by
  have htc := htc_div m P hses
  have hcs := hses.1
  have hieq : i = m.total_chunks - 1 := by omega
  rcases Nat.eq_zero_or_pos P.length with h0 | h0
  · exfalso
    rw [htc, h0] at hi
    have : (0 + m.chunk_size - 1) / m.chunk_size = 0 := Nat.div_eq_of_lt (by omega)
    omega
  · obtain ⟨tc1, htc1⟩ : ∃ tc1, m.total_chunks = tc1 + 1 := ⟨m.total_chunks - 1, by omega⟩
    have hieq2 : i = tc1 := by omega
    have h1 := ceil_le P.length m.chunk_size
    rw [← htc, htc1] at h1
    rw [show m.chunk_size * (tc1 + 1) = m.chunk_size * tc1 + m.chunk_size from by ring] at h1
    have h2 := le_ceil_mul P.length m.chunk_size hcs
    rw [← htc, htc1] at h2
    rw [show (tc1 + 1) * m.chunk_size = m.chunk_size * tc1 + m.chunk_size from by ring] at h2
    have e3 : i * m.chunk_size = m.chunk_size * tc1 := by
      rw [hieq2]
      exact Nat.mul_comm _ _
    constructor
    · rw [chunkVal_length m P hses]
      omega
    · omega

theorem expectedLen_eq (m : SessionMetadata) (P : List Nat) (hses : SessionOK m P)
    (i : Nat) (hi : i < m.total_chunks) :
    expectedLen m i = ((chunkVal m P i).length : Int) := by
  unfold expectedLen
  by_cases hfull : i + 1 < m.total_chunks
  · rw [if_pos (by push_cast; omega), chunk_full_length m P hses i hfull]
  · have hlast := chunk_last_length m P hses i hi hfull
    rw [if_neg (by push_cast; omega), hlast.1]
    have hts := hses.2.2.1
    have hieq : i = m.total_chunks - 1 := by omega
    have hlt : i * m.chunk_size < P.length := hlast.2
    have hcast : ((P.length - i * m.chunk_size : Nat) : Int) =
        (P.length : Int) - (i : Int) * (m.chunk_size : Int) := by
      rw [Nat.cast_sub (le_of_lt hlt)]
      push_cast
      ring
    rw [hcast, hts]
    have hival : ((i : Nat) : Int) = (m.total_chunks : Int) - 1 := by
      rw [hieq]
      push_cast
      omega
    rw [hival]
    ring

theorem recover_outer_len (u v : List (List Nat)) (g : List Nat) :
    (xorParityBlock ((u ++ v) ++ [xorParityBlock (u ++ g :: v)])).length =
      maxLen (u ++ g :: v) := by
  have hL : (xorParityBlock (u ++ g :: v)).length = maxLen (u ++ g :: v) :=
    xorParityBlock_length _ (by simp)
  rw [xorParityBlock_length _ (by simp)]
  apply le_antisymm
  · apply maxLen_lub
    intro b hb
    rcases List.mem_append.mp hb with h | h
    · apply maxLen_le
      rcases List.mem_append.mp h with h2 | h2
      · exact List.mem_append.mpr (Or.inl h2)
      · exact List.mem_append.mpr (Or.inr (List.mem_cons_of_mem _ h2))
    · rw [List.mem_singleton] at h
      subst h
      rw [hL]
  · have hmem := maxLen_le ((u ++ v) ++ [xorParityBlock (u ++ g :: v)])
      (xorParityBlock (u ++ g :: v)) (by simp)
    rw [hL] at hmem
    exact hmem

/-- The recovered block, truncated to the missing block's length, equals
the missing block exactly. -/
theorem recover_value (u v : List (List Nat)) (g : List Nat) :
    (xorParityBlock ((u ++ v) ++ [xorParityBlock (u ++ g :: v)])).take g.length = g := by
  have hgL : g.length ≤ maxLen (u ++ g :: v) := maxLen_le _ g (by simp)
  apply List.ext_getElem
  · simp only [List.length_take, recover_outer_len]
    omega
  · intro i h1 h2
    rw [List.getElem_take]
    have hb := byteAt_xor_recover u v g i
    unfold byteAt at hb
    rw [List.getD_eq_getElem _ _ (by rw [recover_outer_len]; omega),
      List.getD_eq_getElem _ _ h2] at hb
    exact hb

theorem chunkVal_pos (m : SessionMetadata) (P : List Nat) (hses : SessionOK m P)
    (i : Nat) (hi : i < m.total_chunks) : 0 < (chunkVal m P i).length := by
  by_cases hfull : i + 1 < m.total_chunks
  · rw [chunk_full_length m P hses i hfull]
    exact hses.1
  · have := chunk_last_length m P hses i hi hfull
    omega

theorem recoverExtra_exact (m : SessionMetadata) (P : List Nat) (hses : SessionOK m P)
    (db : List (Nat × List Nat)) (parity : List (Nat × List (List Nat)))
    (hdata : ∀ e ∈ db, e.1 < m.total_chunks ∧ e.2 = chunkVal m P e.1)
    (hpar : ∀ e ∈ parity, ∀ p ∈ e.2, p = parityVal m P e.1) (t m0 : Nat)
    (p0 : List Nat) (prest : List (List Nat))
    (hmiss : missingIds db m t = [m0])
    (hpl : alookup t parity = some (p0 :: prest)) :
    m0 < m.total_chunks ∧ alookup m0 db = none ∧
      recoverExtra db parity m t = [(m0, chunkVal m P m0)] := by
  unfold recoverExtra
  rw [hmiss, hpl]
  have hp0 : p0 = parityVal m P t :=
    hpar (t, p0 :: prest) (alookup_mem _ _ _ hpl) p0 (by simp)
  have hm0mem : m0 ∈ superIndices m t ∧ alookup m0 db = none := by
    have hmm : m0 ∈ missingIds db m t := by rw [hmiss]; simp
    unfold missingIds at hmm
    have h2 := List.mem_filter.mp hmm
    exact ⟨h2.1, by simpa using h2.2⟩
  have hm0range := (superIndices_mem m t m0).mp hm0mem.1
  have hm0lt : m0 < m.total_chunks := by omega
  have hpres : ∀ i ∈ superIndices m t,
      ((alookup i db).isSome) = decide (¬ i = m0) := by
    intro i hi
    by_cases heq : i = m0
    · subst heq
      rw [hm0mem.2]
      simp
    · cases hlk : alookup i db with
      | some v => simp [heq]
      | none =>
        exfalso
        have hin : i ∈ missingIds db m t := by
          unfold missingIds
          exact List.mem_filter.mpr ⟨hi, by simp [hlk]⟩
        rw [hmiss] at hin
        simp at hin
        exact heq hin
  set start := t * m.superblock_data with hstart
  set k := min (start + m.superblock_data) m.total_chunks - start with hk
  have hjlt : m0 - start < k := by omega
  have hm0eq : m0 = start + (m0 - start) := by omega
  set j := m0 - start with hj
  have hknown : knownBlocks db m t =
      (List.range' start j).map (fun i => chunkVal m P i)
      ++ (List.range' (start + j + 1) (k - j - 1)).map (fun i => chunkVal m P i) := by
    unfold knownBlocks
    rw [filterMap_eq_map_filter _ _ (fun i => (alookup i db).isSome)
      (fun i => chunkVal m P i) ?hcond]
    case hcond =>
      intro i hi
      cases hlk : alookup i db with
      | none =>
        constructor
        · intro hs
          exact absurd hs (by simp [hlk])
        · intro hns
          first
          | rfl
          | (simp only []; rw [hlk])
      | some v =>
        constructor
        · intro hs
          first
          | exact congrArg some ((hdata (i, v) (alookup_mem _ _ _ hlk)).2).symm
          | exact congrArg some ((hdata (i, v) (alookup_mem _ _ _ hlk)).2)
          | (simp only []
             rw [hlk]
             exact congrArg some ((hdata (i, v) (alookup_mem _ _ _ hlk)).2))
        · intro hns
          exact absurd hns (by simp [hlk])
    rw [List.filter_congr hpres]
    show ((List.range' start k).filter _).map _ = _
    rw [hm0eq]
    rw [range'_filter_ne start k j hjlt, List.map_append]
  have hgroup : groupAt m P t =
      (List.range' start j).map (fun i => chunkVal m P i)
      ++ chunkVal m P m0 ::
        (List.range' (start + j + 1) (k - j - 1)).map (fun i => chunkVal m P i) := by
    unfold groupAt
    rw [drop_take_map]
    rw [← hses.2.2.2]
    show (List.range' start k).map (fun i => chunkVal m P i) = _
    rw [hm0eq, range'_split start k j hjlt, List.map_append, List.map_cons]
  have hg0pos : 0 < (chunkVal m P m0).length := chunkVal_pos m P hses m0 hm0lt
  have hp0ne : p0.isEmpty = false := by
    have hlen : p0.length = maxLen (groupAt m P t) := by
      rw [hp0]
      exact xorParityBlock_length _ (by rw [hgroup]; simp)
    have hge : (chunkVal m P m0).length ≤ maxLen (groupAt m P t) :=
      maxLen_le _ _ (by rw [hgroup]; simp)
    cases hp0c : p0 with
    | nil => rw [hp0c] at hlen; simp at hlen; omega
    | cons x xs => rfl
  refine ⟨hm0lt, hm0mem.2, ?_⟩
  show (match recoverSingleMissing (knownBlocks db m t) p0
          (List.length ([] : List Nat) + 1) with
        | none => ([] : List (Nat × List Nat))
        | some recovered => [(m0, pySlice recovered (expectedLen m m0))])
      = [(m0, chunkVal m P m0)]
  rw [show recoverSingleMissing (knownBlocks db m t) p0 (([] : List Nat).length + 1)
      = some (xorParityBlock (knownBlocks db m t ++ [p0])) from by
    unfold recoverSingleMissing
    rw [if_neg (by simp [hp0ne])]]
  have hval : pySlice (xorParityBlock (knownBlocks db m t ++ [p0])) (expectedLen m m0)
      = chunkVal m P m0 := by
    rw [expectedLen_eq m P hses m0 hm0lt]
    unfold pySlice
    rw [if_neg (by omega)]
    rw [show ((chunkVal m P m0).length : Int).toNat = (chunkVal m P m0).length from by simp]
    rw [hknown, hp0]
    unfold parityVal
    rw [hgroup]
    exact recover_value _ _ _
  show [(m0, pySlice (xorParityBlock (knownBlocks db m t ++ [p0])) (expectedLen m m0))]
    = [(m0, chunkVal m P m0)]
  rw [hval]

theorem recoverExtra_sound (m : SessionMetadata) (P : List Nat) (hses : SessionOK m P)
    (db : List (Nat × List Nat)) (parity : List (Nat × List (List Nat)))
    (hdata : ∀ e ∈ db, e.1 < m.total_chunks ∧ e.2 = chunkVal m P e.1)
    (hpar : ∀ e ∈ parity, ∀ p ∈ e.2, p = parityVal m P e.1) (t : Nat) :
    recoverExtra db parity m t = [] ∨
    ∃ m0, m0 < m.total_chunks ∧ alookup m0 db = none ∧
      recoverExtra db parity m t = [(m0, chunkVal m P m0)] := by
  cases hmiss : missingIds db m t with
  | nil => exact Or.inl (by unfold recoverExtra; rw [hmiss])
  | cons m0 mrest =>
    cases hpl : alookup t parity with
    | none => exact Or.inl (by unfold recoverExtra; rw [hmiss, hpl])
    | some ps =>
      cases ps with
      | nil => exact Or.inl (by unfold recoverExtra; rw [hmiss, hpl])
      | cons p0 prest =>
        cases mrest with
        | cons a b => exact Or.inl (by unfold recoverExtra; rw [hmiss, hpl]; rfl)
        | nil =>
          obtain ⟨h1, h2, h3⟩ :=
            recoverExtra_exact m P hses db parity hdata hpar t m0 p0 prest hmiss hpl
          exact Or.inr ⟨m0, h1, h2, h3⟩

theorem sessionMismatch_false (st : Reassembler) (f : Frame) (s : List Nat)
    (hsid : st.session_id = some s) (hf : f.session_id = s) : ¬ sessionMismatch st f := by
  unfold sessionMismatch
  rw [hsid]
  rintro ⟨_, hne⟩
  exact hne hf

theorem nodup_keys_snoc (db : List (Nat × List Nat)) (bid : Nat) (v : List Nat)
    (hnd : (db.map Prod.fst).Nodup) (habs : alookup bid db = none) :
    (((db ++ [(bid, v)]).map Prod.fst)).Nodup := by
  rw [List.map_append]
  refine List.Nodup.append hnd (by simp) ?_
  intro a ha hb
  simp at hb
  subst hb
  exact (alookup_eq_none_iff _ _).mp habs ha

theorem parityAppend_parityOK (m : SessionMetadata) (P : List Nat)
    (l : List (Nat × List (List Nat))) (k : Nat) (v : List Nat)
    (hpar : ∀ e ∈ l, ∀ p ∈ e.2, p = parityVal m P e.1) (hv : v = parityVal m P k) :
    ∀ e ∈ parityAppend k v l, ∀ p ∈ e.2, p = parityVal m P e.1 := by
  unfold parityAppend
  cases alookup k l with
  | none =>
    intro e he p hp
    rcases List.mem_append.mp he with h | h
    · exact hpar e h p hp
    · rw [List.mem_singleton] at h
      subst h
      rw [List.mem_singleton] at hp
      subst hp
      exact hv
  | some ps =>
    intro e he p hp
    rcases List.mem_map.mp he with ⟨e0, he0, heq⟩
    by_cases hk : e0.1 = k
    · rw [if_pos hk] at heq
      subst heq
      simp only [] at hp
      rcases List.mem_append.mp hp with h | h
      · exact hpar e0 he0 p h
      · rw [List.mem_singleton] at h
        subst h
        rw [hk]
        exact hv
    · rw [if_neg hk] at heq
      subst heq
      exact hpar e0 he0 p hp

theorem maybeRecover_StInv (m : SessionMetadata) (P : List Nat) (hses : SessionOK m P)
    (st : Reassembler) (hinv : StInv m P st) (t : Nat) :
    StInv m P (maybeRecover st t) := by
  unfold maybeRecover
  rw [hinv.1]
  show StInv m P
    ⟨some m, st.session_id,
      st.data_blocks ++ recoverExtra st.data_blocks st.parity_blocks m t,
      st.parity_blocks, st.headers_seen⟩
  rcases recoverExtra_sound m P hses st.data_blocks st.parity_blocks hinv.2.2.1
      hinv.2.2.2.2 t with hre | ⟨m0, hm0lt, hm0none, hre⟩
  · rw [hre]
    exact ⟨rfl, hinv.2.1, by simpa using hinv.2.2.1,
      by unfold keysNodup; simpa using hinv.2.2.2.1, hinv.2.2.2.2⟩
  · rw [hre]
    refine ⟨rfl, hinv.2.1, ?_, ?_, hinv.2.2.2.2⟩
    · intro e he
      rcases List.mem_append.mp he with h | h
      · exact hinv.2.2.1 e h
      · rw [List.mem_singleton] at h
        subst h
        exact ⟨hm0lt, rfl⟩
    · exact nodup_keys_snoc _ _ _ hinv.2.2.2.1 hm0none

theorem ingest_inv (m : SessionMetadata) (P : List Nat) (hses : SessionOK m P)
    (st : Reassembler) (f : Frame) (hinv : StInv m P st) (hf : GoodFrame m P f) :
    StInv m P (ingest st f) := by
  rcases hf with hf | ⟨hft, hsid, hlt, hpay⟩ | ⟨hft, hsid, hpay⟩
  · subst hf
    unfold ingest
    rw [if_pos (show (headerFrame m).frame_type = FrameType.SESSION_HEADER from rfl)]
    unfold handleHeader
    rw [show metaDecode (headerFrame m).payload = some m from metaDecode_metaEncode m]
    show StInv m P (if sessionMismatch st (headerFrame m) then st
      else { st with meta := some m, session_id := some (headerFrame m).session_id,
                     headers_seen := st.headers_seen + 1 })
    rw [if_neg (sessionMismatch_false st (headerFrame m) m.session_id hinv.2.1 rfl)]
    exact ⟨rfl, rfl, hinv.2.2.1, hinv.2.2.2.1, hinv.2.2.2.2⟩
  · unfold ingest
    rw [if_neg (by rw [hft]; exact fun hc => FrameType.noConfusion hc)]
    rw [if_neg (sessionMismatch_false st f m.session_id hinv.2.1 hsid)]
    nth_rewrite 1 [hinv.1]
    show StInv m P (if f.frame_type = FrameType.DATA then
        (match alookup f.block_id st.data_blocks with
         | some _ => st
         | none => maybeRecover
            { st with data_blocks := st.data_blocks ++ [(f.block_id, f.payload)] }
            f.superblock_id)
      else if f.frame_type = FrameType.FEC then
        maybeRecover
          { st with parity_blocks := parityAppend f.superblock_id f.payload st.parity_blocks }
          f.superblock_id
      else st)
    rw [if_pos hft]
    cases hlk : alookup f.block_id st.data_blocks with
    | some v => exact hinv
    | none =>
      apply maybeRecover_StInv m P hses _ _ f.superblock_id
      refine ⟨hinv.1, hinv.2.1, ?_, ?_, hinv.2.2.2.2⟩
      · intro e he
        rcases List.mem_append.mp he with h | h
        · exact hinv.2.2.1 e h
        · rw [List.mem_singleton] at h
          subst h
          exact ⟨hlt, hpay⟩
      · exact nodup_keys_snoc _ _ _ hinv.2.2.2.1 hlk
  · unfold ingest
    rw [if_neg (by rw [hft]; exact fun hc => FrameType.noConfusion hc)]
    rw [if_neg (sessionMismatch_false st f m.session_id hinv.2.1 hsid)]
    nth_rewrite 1 [hinv.1]
    show StInv m P (if f.frame_type = FrameType.DATA then
        (match alookup f.block_id st.data_blocks with
         | some _ => st
         | none => maybeRecover
            { st with data_blocks := st.data_blocks ++ [(f.block_id, f.payload)] }
            f.superblock_id)
      else if f.frame_type = FrameType.FEC then
        maybeRecover
          { st with parity_blocks := parityAppend f.superblock_id f.payload st.parity_blocks }
          f.superblock_id
      else st)
    rw [if_neg (by rw [hft]; exact fun hc => FrameType.noConfusion hc)]
    rw [if_pos hft]
    apply maybeRecover_StInv m P hses _ _ f.superblock_id
    exact ⟨hinv.1, hinv.2.1, hinv.2.2.1, hinv.2.2.2.1,
      parityAppend_parityOK m P _ _ _ hinv.2.2.2.2 hpay⟩

/-! ## Monotonicity and completion of the reassembler -/

theorem ingest_data_prefix (st : Reassembler) (f : Frame) :
    ∃ extra, (ingest st f).data_blocks = st.data_blocks ++ extra := by
  unfold ingest
  by_cases hh : f.frame_type = .SESSION_HEADER
  · rw [if_pos hh]
    unfold handleHeader
    cases hmd : metaDecode f.payload with
    | none => exact ⟨[], by simp⟩
    | some m =>
      refine ⟨[], ?_⟩
      rw [List.append_nil]
      show (if sessionMismatch st f then st
        else Reassembler.mk (some m) (some f.session_id) st.data_blocks st.parity_blocks
          (st.headers_seen + 1)).data_blocks = st.data_blocks
      by_cases hsm : sessionMismatch st f
      · rw [if_pos hsm]
      · rw [if_neg hsm]
  · rw [if_neg hh]
    by_cases hsm : sessionMismatch st f
    · rw [if_pos hsm]; exact ⟨[], by simp⟩
    · rw [if_neg hsm]
      cases hm : st.meta with
      | none => exact ⟨[], by simp⟩
      | some m =>
        by_cases hd : f.frame_type = .DATA
        · rw [if_pos hd]
          cases hlk : alookup f.block_id st.data_blocks with
          | some v => exact ⟨[], by simp⟩
          | none =>
            obtain ⟨_, _, _, _, extra, hdb⟩ := maybeRecover_shape
              (Reassembler.mk (some m) st.session_id
                (st.data_blocks ++ [(f.block_id, f.payload)]) st.parity_blocks st.headers_seen)
              f.superblock_id
            exact ⟨(f.block_id, f.payload) :: extra, by rw [hdb]; simp⟩
        · rw [if_neg hd]
          by_cases hfec : f.frame_type = .FEC
          · rw [if_pos hfec]
            obtain ⟨_, _, _, _, extra, hdb⟩ := maybeRecover_shape
              (Reassembler.mk (some m) st.session_id st.data_blocks
                (parityAppend f.superblock_id f.payload st.parity_blocks) st.headers_seen)
              f.superblock_id
            exact ⟨extra, hdb⟩
          · rw [if_neg hfec]; exact ⟨[], by simp⟩

theorem ingest_mono (st : Reassembler) (f : Frame) (k : Nat)
    (h : (alookup k st.data_blocks).isSome = true) :
    (alookup k (ingest st f).data_blocks).isSome = true := by
  obtain ⟨v, hv⟩ := Option.isSome_iff_exists.mp h
  obtain ⟨extra, hdb⟩ := ingest_data_prefix st f
  rw [hdb, alookup_append, hv]
  rfl

theorem ingest_present (m : SessionMetadata) (P : List Nat)
    (st : Reassembler) (f : Frame) (hinv : StInv m P st)
    (hft : f.frame_type = .DATA) (hsid : f.session_id = m.session_id) :
    (alookup f.block_id (ingest st f).data_blocks).isSome = true := by
  unfold ingest
  rw [if_neg (by rw [hft]; exact fun hc => FrameType.noConfusion hc)]
  rw [if_neg (sessionMismatch_false st f m.session_id hinv.2.1 hsid)]
  nth_rewrite 1 [hinv.1]
  show (alookup f.block_id
    (if f.frame_type = FrameType.DATA then
        (match alookup f.block_id st.data_blocks with
         | some _ => st
         | none => maybeRecover
            { st with data_blocks := st.data_blocks ++ [(f.block_id, f.payload)] }
            f.superblock_id)
      else if f.frame_type = FrameType.FEC then
        maybeRecover
          { st with parity_blocks := parityAppend f.superblock_id f.payload st.parity_blocks }
          f.superblock_id
      else st).data_blocks).isSome = true
  rw [if_pos hft]
  cases hlk : alookup f.block_id st.data_blocks with
  | some v => rw [hlk]; rfl
  | none =>
    obtain ⟨_, _, _, _, extra, hdb⟩ := maybeRecover_shape
      { st with data_blocks := st.data_blocks ++ [(f.block_id, f.payload)] }
      f.superblock_id
    rw [hdb]
    show (alookup f.block_id
      ((st.data_blocks ++ [(f.block_id, f.payload)]) ++ extra)).isSome = true
    rw [alookup_append, alookup_snoc_self f.block_id st.data_blocks f.payload hlk]
    rfl

theorem foldl_ingest_inv (m : SessionMetadata) (P : List Nat) (hses : SessionOK m P) :
    ∀ (fs : List Frame) (st : Reassembler), StInv m P st →
      (∀ f ∈ fs, GoodFrame m P f) → StInv m P (List.foldl ingest st fs)
  | [], st, hinv, _ => hinv
  | f :: rest, st, hinv, hgood =>
    foldl_ingest_inv m P hses rest (ingest st f)
      (ingest_inv m P hses st f hinv (hgood f (by simp)))
      (fun g hg => hgood g (List.mem_cons_of_mem _ hg))

theorem foldl_ingest_mono :
    ∀ (fs : List Frame) (st : Reassembler) (k : Nat),
      (alookup k st.data_blocks).isSome = true →
      (alookup k (List.foldl ingest st fs).data_blocks).isSome = true
  | [], _, _, h => h
  | f :: rest, st, k, h => foldl_ingest_mono rest (ingest st f) k (ingest_mono st f k h)

theorem foldl_ingest_present (m : SessionMetadata) (P : List Nat) (hses : SessionOK m P) :
    ∀ (fs : List Frame) (st : Reassembler), StInv m P st →
      (∀ f ∈ fs, GoodFrame m P f) →
      ∀ f ∈ fs, f.frame_type = .DATA →
        (alookup f.block_id (List.foldl ingest st fs).data_blocks).isSome = true := by
  intro fs
  induction fs with
  | nil => intro st _ _ f hf; simp at hf
  | cons g rest ih =>
    intro st hinv hgood f hf hft
    rcases List.mem_cons.mp hf with hfg | hfr
    · subst hfg
      have hsid : f.session_id = m.session_id := by
        rcases hgood f (by simp) with hh | ⟨_, hs, _, _⟩ | ⟨hfec, _, _⟩
        · rw [hh] at hft
          exact absurd hft (by exact fun hc => FrameType.noConfusion hc)
        · exact hs
        · rw [hfec] at hft
          exact absurd hft (by exact fun hc => FrameType.noConfusion hc)
      exact foldl_ingest_mono rest (ingest st f) f.block_id
        (ingest_present m P st f hinv hft hsid)
    · exact ih (ingest st g)
        (ingest_inv m P hses st g hinv (hgood g (by simp)))
        (fun g2 hg2 => hgood g2 (List.mem_cons_of_mem _ hg2)) f hfr hft

theorem collectBlocks_ok (db : List (Nat × List Nat)) :
    ∀ ids : List Nat, (∀ i ∈ ids, (alookup i db).isSome = true) →
      collectBlocks db ids = .ok (ids.map (fun i => (alookup i db).getD []))
  | [], _ => rfl
  | i :: rest, h => by
    obtain ⟨v, hv⟩ := Option.isSome_iff_exists.mp (h i (by simp))
    unfold collectBlocks
    rw [hv, collectBlocks_ok db rest (fun j hj => h j (List.mem_cons_of_mem _ hj))]
    simp [hv]

theorem length_complete (m : SessionMetadata) (P : List Nat) (st : Reassembler)
    (hinv : StInv m P st)
    (hall : ∀ i, i < m.total_chunks → (alookup i st.data_blocks).isSome = true) :
    m.total_chunks ≤ st.data_blocks.length := by
  have hsub : Finset.range m.total_chunks ⊆ (st.data_blocks.map Prod.fst).toFinset := by
    intro i hi
    obtain ⟨v, hv⟩ := Option.isSome_iff_exists.mp (hall i (Finset.mem_range.mp hi))
    exact List.mem_toFinset.mpr (List.mem_map.mpr ⟨(i, v), alookup_mem _ _ _ hv, rfl⟩)
  calc m.total_chunks = (Finset.range m.total_chunks).card := (Finset.card_range _).symm
    _ ≤ (st.data_blocks.map Prod.fst).toFinset.card := Finset.card_le_card hsub
    _ = (st.data_blocks.map Prod.fst).length := List.toFinset_card_of_nodup hinv.2.2.2.1
    _ = st.data_blocks.length := List.length_map _ _

theorem complete_write (m : SessionMetadata) (P : List Nat) (hses : SessionOK m P)
    (st : Reassembler) (hinv : StInv m P st)
    (hall : ∀ i, i < m.total_chunks → (alookup i st.data_blocks).isSome = true) :
    isComplete st = true ∧ writePayload st = .ok P := by
  constructor
  · unfold isComplete
    rw [hinv.1]
    exact decide_eq_true (length_complete m P st hinv hall)
  · unfold writePayload
    rw [hinv.1]
    show Except.map List.flatten (collectBlocks st.data_blocks (List.range m.total_chunks))
      = Except.ok P
    rw [collectBlocks_ok st.data_blocks (List.range m.total_chunks)
      (fun i hi => hall i (List.mem_range.mp hi))]
    have hvals : (List.range m.total_chunks).map
        (fun i => (alookup i st.data_blocks).getD [])
        = (List.range m.total_chunks).map (fun i => chunkVal m P i) := by
      apply List.map_congr_left
      intro i hi
      obtain ⟨v, hv⟩ := Option.isSome_iff_exists.mp (hall i (List.mem_range.mp hi))
      rw [hv]
      exact (hinv.2.2.1 (i, v) (alookup_mem _ _ _ hv)).2
    rw [hvals]
    have hmap : (List.range m.total_chunks).map (fun i => chunkVal m P i)
        = chunkList m.chunk_size P := by
      unfold chunkVal
      rw [hses.2.2.2]
      exact getD_map_range (chunkList m.chunk_size P)
    rw [hmap]
    show Except.ok (chunkList m.chunk_size P).flatten = Except.ok P
    rw [chunkList_flatten m.chunk_size P hses.1]

theorem keys_complete (m : SessionMetadata) (P : List Nat) (st : Reassembler)
    (hinv : StInv m P st) (hlen : m.total_chunks ≤ st.data_blocks.length) :
    ∀ i, i < m.total_chunks → (alookup i st.data_blocks).isSome = true := by
  have hsub : (st.data_blocks.map Prod.fst).toFinset ⊆ Finset.range m.total_chunks := by
    intro k hk
    obtain ⟨e, he, hke⟩ := List.mem_map.mp (List.mem_toFinset.mp hk)
    exact Finset.mem_range.mpr (hke ▸ (hinv.2.2.1 e he).1)
  have hcardle : (Finset.range m.total_chunks).card ≤
      (st.data_blocks.map Prod.fst).toFinset.card := by
    rw [Finset.card_range, List.toFinset_card_of_nodup hinv.2.2.2.1, List.length_map]
    exact hlen
  have heq := Finset.eq_of_subset_of_card_le hsub hcardle
  intro i hi
  have hmem : i ∈ st.data_blocks.map Prod.fst := by
    have : i ∈ (st.data_blocks.map Prod.fst).toFinset := by
      rw [heq]
      exact Finset.mem_range.mpr hi
    exact List.mem_toFinset.mp this
  cases hlk : alookup i st.data_blocks with
  | none => exact absurd ((alookup_eq_none_iff i st.data_blocks).mp hlk) (by simp [hmem])
  | some v => rfl

/-! ## Goodness and coverage of the sender's frame stream -/

theorem genLoop_empty (m : SessionMetadata) (hi sb bid : Nat) :
    genLoop m hi sb bid (groupN m.superblock_data []) = [] := by
  rw [groupN, dif_pos (Or.inr rfl)]
  rfl

theorem genLoop_good (m : SessionMetadata) (P : List Nat) (hses : SessionOK m P)
    (hi : Nat) (rem : List (List Nat)) :
    ∀ sb : Nat, rem = (chunkList m.chunk_size P).drop (sb * m.superblock_data) →
      ∀ f ∈ genLoop m hi sb (sb * m.superblock_data) (groupN m.superblock_data rem),
        GoodFrame m P f := by
  induction rem using groupN.induct m.superblock_data with
  | case1 rem h =>
    have hrem : rem = [] := h.resolve_left (by have := hses.2.1; omega)
    intro sb hlink f hf
    rw [hrem, genLoop_empty] at hf
    exact absurd hf (List.not_mem_nil f)
  | case2 rem h ih =>
    push_neg at h
    intro sb hlink f hf
    have hsbd : 0 < m.superblock_data := hses.2.1
    have hlenrem : rem.length = (chunkList m.chunk_size P).length - sb * m.superblock_data := by
      rw [hlink, List.length_drop]
    have hrempos : 0 < rem.length := List.length_pos.mpr h.2
    have hsblt : sb * m.superblock_data < (chunkList m.chunk_size P).length := by omega
    rw [groupN, dif_neg (by push_neg; exact h)] at hf
    rw [genLoop] at hf
    rcases List.mem_append.mp hf with hf1 | hf3
    rcases List.mem_append.mp hf1 with hf1 | hf2
    · unfold superFrames at hf1
      rcases List.mem_append.mp hf1 with hfd | hffec
      · obtain ⟨i, hi2, hfi⟩ := List.mem_map.mp hfd
        have hilt : i < (rem.take m.superblock_data).length := List.mem_range.mp hi2
        have hilen : i < min m.superblock_data rem.length := by
          rw [List.length_take] at hilt
          exact hilt
        refine Or.inr (Or.inl ?_)
        rw [← hfi]
        refine ⟨rfl, rfl, ?_, ?_⟩
        · show sb * m.superblock_data + i < m.total_chunks
          rw [hses.2.2.2]
          omega
        · show (rem.take m.superblock_data).getD i [] =
            chunkVal m P (sb * m.superblock_data + i)
          rw [getD_take rem m.superblock_data i (by omega), hlink,
            getD_drop (chunkList m.chunk_size P) (sb * m.superblock_data) i]
          rfl
      · obtain ⟨i, hi2, hfi⟩ := List.mem_map.mp hffec
        have hilt : i < (generateParityBlocks (rem.take m.superblock_data)
            m.redundancy).length := List.mem_range.mp hi2
        refine Or.inr (Or.inr ?_)
        rw [← hfi]
        refine ⟨rfl, rfl, ?_⟩
        show (generateParityBlocks (rem.take m.superblock_data) m.redundancy).getD i []
          = parityVal m P sb
        unfold generateParityBlocks at hilt ⊢
        rw [List.length_replicate] at hilt
        rw [List.getD_eq_getElem _ _ (by rw [List.length_replicate]; exact hilt),
          List.getElem_replicate]
        unfold parityVal groupAt
        rw [hlink]
    · have hfh : f = headerFrame m := by
        by_cases hc : 0 < hi ∧ (sb * m.superblock_data +
            (rem.take m.superblock_data).length) % hi = 0
        · rw [if_pos hc] at hf2
          simpa using hf2
        · rw [if_neg hc] at hf2
          exact absurd hf2 (List.not_mem_nil f)
      exact Or.inl hfh
    · rcases le_or_lt m.superblock_data rem.length with hle | hgt
      · have hbl : (rem.take m.superblock_data).length = m.superblock_data := by
          rw [List.length_take]
          omega
        rw [hbl, show sb * m.superblock_data + m.superblock_data
            = (sb + 1) * m.superblock_data from by ring] at hf3
        refine ih (sb + 1) ?_ f hf3
        rw [hlink, List.drop_drop, show sb * m.superblock_data + m.superblock_data
            = (sb + 1) * m.superblock_data from by ring]
      · have hdrop : rem.drop m.superblock_data = [] := by
          apply List.eq_nil_of_length_eq_zero
          rw [List.length_drop]
          omega
        rw [hdrop, genLoop_empty] at hf3
        exact absurd hf3 (List.not_mem_nil f)

theorem genLoop_covers (m : SessionMetadata) (hi : Nat) (hsbd : 0 < m.superblock_data)
    (rem : List (List Nat)) :
    ∀ sb bid j : Nat, j < rem.length →
      ∃ f ∈ genLoop m hi sb bid (groupN m.superblock_data rem),
        f.frame_type = .DATA ∧ f.block_id = bid + j ∧ f.payload = rem.getD j [] := by
  induction rem using groupN.induct m.superblock_data with
  | case1 rem h =>
    have hrem : rem = [] := h.resolve_left (by omega)
    intro sb bid j hj
    rw [hrem] at hj
    exact absurd hj (by simp)
  | case2 rem h ih =>
    push_neg at h
    intro sb bid j hj
    rw [groupN, dif_neg (by push_neg; exact h), genLoop]
    by_cases hjlt : j < (rem.take m.superblock_data).length
    · refine ⟨{ frame_type := .DATA, session_id := m.session_id, superblock_id := sb,
                block_id := bid + j, total_blocks := m.total_chunks,
                blocks_in_super := (rem.take m.superblock_data).length, flags := 0,
                payload := (rem.take m.superblock_data).getD j [] }, ?_, rfl, rfl, ?_⟩
      · apply List.mem_append_left
        apply List.mem_append_left
        unfold superFrames
        apply List.mem_append_left
        exact List.mem_map.mpr ⟨j, List.mem_range.mpr hjlt, rfl⟩
      · show (rem.take m.superblock_data).getD j [] = rem.getD j []
        rw [List.length_take] at hjlt
        exact getD_take rem m.superblock_data j (by omega)
    · rw [List.length_take] at hjlt
      have hge : m.superblock_data ≤ j := by omega
      have hlee : m.superblock_data ≤ rem.length := by omega
      have hbl : (rem.take m.superblock_data).length = m.superblock_data := by
        rw [List.length_take]
        omega
      obtain ⟨f, hfmem, hft, hbid, hpay⟩ := ih (sb + 1)
        (bid + (rem.take m.superblock_data).length) (j - m.superblock_data)
        (by rw [List.length_drop]; omega)
      refine ⟨f, ?_, hft, ?_, ?_⟩
      · exact List.mem_append_right _ hfmem
      · rw [hbid, hbl]
        omega
      · rw [hpay, getD_drop rem m.superblock_data (j - m.superblock_data)]
        congr 1
        omega

theorem generateFrames_good (m : SessionMetadata) (P : List Nat) (hses : SessionOK m P)
    (hr hi : Nat) : ∀ f ∈ generateFrames m P hr hi, GoodFrame m P f := by
  intro f hf
  unfold generateFrames at hf
  rcases List.mem_append.mp hf with hf1 | hf2
  · exact Or.inl (List.eq_of_mem_replicate hf1)
  · refine genLoop_good m P hses hi (chunkList m.chunk_size P) 0
      (by rw [Nat.zero_mul, List.drop_zero]) f ?_
    rw [Nat.zero_mul]
    exact hf2

theorem generateFrames_covers (m : SessionMetadata) (P : List Nat) (hses : SessionOK m P)
    (hr hi : Nat) : ∀ j, j < m.total_chunks →
      ∃ f ∈ generateFrames m P hr hi, f.frame_type = .DATA ∧ f.block_id = j := by
  intro j hj
  obtain ⟨f, hfmem, hft, hbid, _⟩ := genLoop_covers m hi hses.2.1
    (chunkList m.chunk_size P) 0 0 j (by rw [← hses.2.2.2]; exact hj)
  refine ⟨f, ?_, hft, by omega⟩
  unfold generateFrames
  exact List.mem_append_right _ hfmem

theorem ingest_header_init (m : SessionMetadata) :
    ingest initReassembler (headerFrame m) =
      { meta := some m, session_id := some m.session_id, data_blocks := [],
        parity_blocks := [], headers_seen := 1 } := by
  unfold ingest
  rw [if_pos (show (headerFrame m).frame_type = FrameType.SESSION_HEADER from rfl)]
  unfold handleHeader
  rw [show metaDecode (headerFrame m).payload = some m from metaDecode_metaEncode m]
  show (if sessionMismatch initReassembler (headerFrame m) then initReassembler
    else Reassembler.mk (some m) (some (headerFrame m).session_id) [] [] 1) = _
  rw [if_neg (show ¬ sessionMismatch initReassembler (headerFrame m) from fun hcon => hcon)]
  rfl

theorem initHeader_inv (m : SessionMetadata) (P : List Nat) :
    StInv m P (ingest initReassembler (headerFrame m)) := by
  rw [ingest_header_init]
  exact ⟨rfl, rfl, fun e he => absurd he (List.not_mem_nil e),
    List.nodup_nil, fun e he => absurd he (List.not_mem_nil e)⟩

theorem buildMetadata_SessionOK (P : List Nat) (cs sbd red : Nat)
    (sha pack comp root : List Nat) (fc : Nat) (sid : List Nat)
    (hcs : 0 < cs) (hsbd : 0 < sbd) :
    SessionOK (buildMetadata P.length cs sbd red sha pack comp root fc sid) P := by
  refine ⟨hcs, hsbd, rfl, ?_⟩
  show estimateTotalChunks P.length cs = (chunkList cs P).length
  rw [chunkList_length cs P hcs]
  rfl

/-! ## SHA-256 (model of `hashlib.sha256(...).hexdigest()` as used by the
packager when stamping `SessionMetadata.sha256`) -/

def rotr32 (n x : Nat) : Nat := (x / 2 ^ n + x % 2 ^ n * 2 ^ (32 - n)) % 2 ^ 32

def shaCh (x y z : Nat) : Nat := Nat.xor (Nat.land x y) (Nat.land (Nat.xor x 4294967295) z)

def shaMaj (x y z : Nat) : Nat :=
  Nat.xor (Nat.xor (Nat.land x y) (Nat.land x z)) (Nat.land y z)

def bSig0 (x : Nat) : Nat := Nat.xor (Nat.xor (rotr32 2 x) (rotr32 13 x)) (rotr32 22 x)

def bSig1 (x : Nat) : Nat := Nat.xor (Nat.xor (rotr32 6 x) (rotr32 11 x)) (rotr32 25 x)

def sSig0 (x : Nat) : Nat := Nat.xor (Nat.xor (rotr32 7 x) (rotr32 18 x)) (x / 2 ^ 3)

def sSig1 (x : Nat) : Nat := Nat.xor (Nat.xor (rotr32 17 x) (rotr32 19 x)) (x / 2 ^ 10)

def shaK : List Nat := [1116352408, 1899447441, 3049323471, 3921009573, 961987163,
  1508970993, 2453635748, 2870763221, 3624381080, 310598401, 607225278, 1426881987,
  1925078388, 2162078206, 2614888103, 3248222580, 3835390401, 4022224774, 264347078,
  604807628, 770255983, 1249150122, 1555081692, 1996064986, 2554220882, 2821834349,
  2952996808, 3210313671, 3336571891, 3584528711, 113926993, 338241895, 666307205,
  773529912, 1294757372, 1396182291, 1695183700, 1986661051, 2177026350, 2456956037,
  2730485921, 2820302411, 3259730800, 3345764771, 3516065817, 3600352804, 4094571909,
  275423344, 430227734, 506948616, 659060556, 883997877, 958139571, 1322822218,
  1537002063, 1747873779, 1955562222, 2024104815, 2227730452, 2361852424, 2428436474,
  2756734187, 3204031479, 3329325298]

def shaH0 : List Nat := [1779033703, 3144134277, 1013904242, 2773480762, 1359893119,
  2600822924, 528734635, 1541459225]

def shaPad (msg : List Nat) : List Nat :=
  msg ++ 128 :: List.replicate ((119 - msg.length % 64) % 64) 0 ++ beBytes 8 (msg.length * 8)

def shaExtendStep (w : List Nat) : List Nat :=
  w ++ [(sSig1 (w.getD (w.length - 2) 0) + w.getD (w.length - 7) 0 +
         sSig0 (w.getD (w.length - 15) 0) + w.getD (w.length - 16) 0) % 2 ^ 32]

def shaSchedule (blk : List Nat) : List Nat :=
  (List.range 48).foldl (fun w _ => shaExtendStep w) ((chunkList 4 blk).map beDecode)

def shaRound (k w : Nat) (st : List Nat) : List Nat :=
  let a := st.getD 0 0
  let b := st.getD 1 0
  let c := st.getD 2 0
  let d := st.getD 3 0
  let e := st.getD 4 0
  let f := st.getD 5 0
  let g := st.getD 6 0
  let h := st.getD 7 0
  let t1 := (h + bSig1 e + shaCh e f g + k + w) % 2 ^ 32
  let t2 := (bSig0 a + shaMaj a b c) % 2 ^ 32
  [(t1 + t2) % 2 ^ 32, a, b, c, (d + t1) % 2 ^ 32, e, f, g]

def shaCompress (hs : List Nat) (blk : List Nat) : List Nat :=
  let ws := shaSchedule blk
  let fin := (List.range 64).foldl
    (fun st i => shaRound (shaK.getD i 0) (ws.getD i 0) st) hs
  List.zipWith (fun x y => (x + y) % 2 ^ 32) hs fin

def sha256bytes (msg : List Nat) : List Nat :=
  (((chunkList 64 (shaPad msg)).foldl shaCompress shaH0).map (beBytes 4)).flatten

def hexDigit (n : Nat) : Nat := if n < 10 then 48 + n else 87 + n

def sha256hex (msg : List Nat) : List Nat :=
  ((sha256bytes msg).map (fun b => [hexDigit (b / 16), hexDigit (b % 16)])).flatten

/-! ## Lookup after a parity append; two-missing avoidance -/

theorem alookup_map_update (k : Nat) (v : List Nat) (l : List (Nat × List (List Nat))) :
    alookup k (l.map (fun e => if e.1 = k then (e.1, e.2 ++ [v]) else e)) =
      match alookup k l with
      | none => none
      | some ps => some (ps ++ [v]) := by
  induction l with
  | nil => rfl
  | cons e rest ih =>
    rcases e with ⟨k2, v2⟩
    by_cases hk : k2 = k
    · subst hk
      simp only [List.map_cons, if_pos rfl]
      show (if k2 = k2 then some (v2 ++ [v]) else _) =
        match (if k2 = k2 then some v2 else alookup k2 rest) with
        | none => none
        | some ps => some (ps ++ [v])
      rw [if_pos rfl, if_pos rfl]
    · simp only [List.map_cons, if_neg hk]
      show (if k2 = k then some v2 else _) =
        match (if k2 = k then some v2 else alookup k rest) with
        | none => none
        | some ps => some (ps ++ [v])
      rw [if_neg hk, if_neg hk, ih]

theorem parityAppend_lookup (k : Nat) (v : List Nat) (l : List (Nat × List (List Nat))) :
    ∃ ps, alookup k (parityAppend k v l) = some (ps ++ [v]) := by
  unfold parityAppend
  cases hlk : alookup k l with
  | none =>
    refine ⟨[], ?_⟩
    rw [alookup_append, hlk]
    show (if k = k then some [v] else none) = some ([] ++ [v])
    rw [if_pos rfl]
    rfl
  | some ps =>
    refine ⟨ps, ?_⟩
    rw [alookup_map_update, hlk]

theorem superIndices_disjoint (m : SessionMetadata) (hsbd : 0 < m.superblock_data)
    (i t t' : Nat) (h1 : i ∈ superIndices m t) (h2 : i ∈ superIndices m t') : t = t' := by
  rw [superIndices_mem] at h1 h2
  rcases Nat.lt_trichotomy t t' with hlt | heq | hgt
  · exfalso
    have hmul := Nat.mul_le_mul_right m.superblock_data (show t + 1 ≤ t' from hlt)
    have hexp : (t + 1) * m.superblock_data
        = t * m.superblock_data + m.superblock_data := by ring
    omega
  · exact heq
  · exfalso
    have hmul := Nat.mul_le_mul_right m.superblock_data (show t' + 1 ≤ t from hgt)
    have hexp : (t' + 1) * m.superblock_data
        = t' * m.superblock_data + m.superblock_data := by ring
    omega

theorem recoverExtra_avoid (db : List (Nat × List Nat)) (parity : List (Nat × List (List Nat)))
    (m : SessionMetadata) (t' i j t : Nat) (hsbd : 0 < m.superblock_data) (hij : i ≠ j)
    (hi : i ∈ superIndices m t) (hj : j ∈ superIndices m t)
    (habsi : alookup i db = none) (habsj : alookup j db = none) :
    ∀ e ∈ recoverExtra db parity m t', e.1 ≠ i := by
  intro e he hei
  unfold recoverExtra at he
  revert he
  cases hmiss : missingIds db m t' with
  | nil => exact fun he => absurd he (List.not_mem_nil e)
  | cons m0 mrest =>
    cases hpl : alookup t' parity with
    | none => exact fun he => absurd he (List.not_mem_nil e)
    | some ps =>
      cases ps with
      | nil => exact fun he => absurd he (List.not_mem_nil e)
      | cons p0 prest =>
        show e ∈ (match recoverSingleMissing (knownBlocks db m t') p0 (mrest.length + 1) with
          | none => ([] : List (Nat × List Nat))
          | some recovered => [(m0, pySlice recovered (expectedLen m m0))]) → False
        cases hrs : recoverSingleMissing (knownBlocks db m t') p0 (mrest.length + 1) with
        | none => exact fun he => absurd he (List.not_mem_nil e)
        | some r =>
          intro he
          rw [List.mem_singleton] at he
          have hm0 : m0 = i := by rw [he] at hei; exact hei
          have hmrest : mrest = [] := by
            unfold recoverSingleMissing at hrs
            by_cases hc : mrest.length + 1 ≠ 1 ∨ p0.isEmpty = true
            · rw [if_pos hc] at hrs
              exact absurd hrs (by simp)
            · push_neg at hc
              have := hc.1
              exact List.eq_nil_of_length_eq_zero (by omega)
          have hiin : i ∈ missingIds db m t' := by
            rw [hmiss, hm0, hmrest]
            simp
          have hit' : i ∈ superIndices m t' :=
            (List.mem_filter.mp hiin).1
          have htt : t = t' := superIndices_disjoint m hsbd i t t' hi hit'
          have hjin : j ∈ missingIds db m t' := by
            subst htt
            exact List.mem_filter.mpr ⟨hj, by rw [habsj]; rfl⟩
          rw [hmiss, hm0, hmrest] at hjin
          rw [List.mem_singleton] at hjin
          exact hij hjin.symm

theorem ingest_absent_pair (m : SessionMetadata) (st : Reassembler) (f : Frame)
    (i j t : Nat) (hsbd : 0 < m.superblock_data) (hij : i ≠ j)
    (hi : i ∈ superIndices m t) (hj : j ∈ superIndices m t)
    (hmeta : st.meta = some m)
    (habsi : alookup i st.data_blocks = none) (habsj : alookup j st.data_blocks = none)
    (hnh : f.frame_type ≠ .SESSION_HEADER)
    (hbid : f.frame_type = .DATA → f.block_id ≠ i ∧ f.block_id ≠ j) :
    (ingest st f).meta = some m ∧
    alookup i (ingest st f).data_blocks = none ∧
    alookup j (ingest st f).data_blocks = none := by
  unfold ingest
  rw [if_neg hnh]
  by_cases hsm : sessionMismatch st f
  · rw [if_pos hsm]
    exact ⟨hmeta, habsi, habsj⟩
  · rw [if_neg hsm]
    cases hm2 : st.meta with
    | none => exact ⟨hmeta, habsi, habsj⟩
    | some m1 =>
      have hm1 : m1 = m := by
        rw [hm2] at hmeta
        exact Option.some.inj hmeta
      rw [hm1]
      by_cases hd : f.frame_type = FrameType.DATA
      · rw [if_pos hd]
        obtain ⟨hbi, hbj⟩ := hbid hd
        cases hlk : alookup f.block_id st.data_blocks with
        | some v => exact ⟨hmeta, habsi, habsj⟩
        | none =>
          have h1i : alookup i (st.data_blocks ++ [(f.block_id, f.payload)]) = none := by
            rw [alookup_snoc_ne _ _ _ _ hbi]
            exact habsi
          have h1j : alookup j (st.data_blocks ++ [(f.block_id, f.payload)]) = none := by
            rw [alookup_snoc_ne _ _ _ _ hbj]
            exact habsj
          refine ⟨rfl, ?_, ?_⟩
          · show alookup i ((st.data_blocks ++ [(f.block_id, f.payload)]) ++
              recoverExtra (st.data_blocks ++ [(f.block_id, f.payload)]) st.parity_blocks m
                f.superblock_id) = none
            rw [alookup_append, h1i]
            show alookup i (recoverExtra (st.data_blocks ++ [(f.block_id, f.payload)])
              st.parity_blocks m f.superblock_id) = none
            rw [alookup_eq_none_iff]
            intro hmem
            obtain ⟨e, he, hefst⟩ := List.mem_map.mp hmem
            exact recoverExtra_avoid (st.data_blocks ++ [(f.block_id, f.payload)])
              st.parity_blocks m f.superblock_id i j t hsbd hij hi hj h1i h1j e he hefst
          · show alookup j ((st.data_blocks ++ [(f.block_id, f.payload)]) ++
              recoverExtra (st.data_blocks ++ [(f.block_id, f.payload)]) st.parity_blocks m
                f.superblock_id) = none
            rw [alookup_append, h1j]
            show alookup j (recoverExtra (st.data_blocks ++ [(f.block_id, f.payload)])
              st.parity_blocks m f.superblock_id) = none
            rw [alookup_eq_none_iff]
            intro hmem
            obtain ⟨e, he, hefst⟩ := List.mem_map.mp hmem
            exact recoverExtra_avoid (st.data_blocks ++ [(f.block_id, f.payload)])
              st.parity_blocks m f.superblock_id j i t hsbd (fun hc => hij hc.symm) hj hi
              h1j h1i e he hefst
      · rw [if_neg hd]
        by_cases hfec : f.frame_type = FrameType.FEC
        · rw [if_pos hfec]
          refine ⟨rfl, ?_, ?_⟩
          · show alookup i (st.data_blocks ++
              recoverExtra st.data_blocks
                (parityAppend f.superblock_id f.payload st.parity_blocks) m
                f.superblock_id) = none
            rw [alookup_append, habsi]
            show alookup i (recoverExtra st.data_blocks
              (parityAppend f.superblock_id f.payload st.parity_blocks) m
              f.superblock_id) = none
            rw [alookup_eq_none_iff]
            intro hmem
            obtain ⟨e, he, hefst⟩ := List.mem_map.mp hmem
            exact recoverExtra_avoid st.data_blocks
              (parityAppend f.superblock_id f.payload st.parity_blocks) m
              f.superblock_id i j t hsbd hij hi hj habsi habsj e he hefst
          · show alookup j (st.data_blocks ++
              recoverExtra st.data_blocks
                (parityAppend f.superblock_id f.payload st.parity_blocks) m
                f.superblock_id) = none
            rw [alookup_append, habsj]
            show alookup j (recoverExtra st.data_blocks
              (parityAppend f.superblock_id f.payload st.parity_blocks) m
              f.superblock_id) = none
            rw [alookup_eq_none_iff]
            intro hmem
            obtain ⟨e, he, hefst⟩ := List.mem_map.mp hmem
            exact recoverExtra_avoid st.data_blocks
              (parityAppend f.superblock_id f.payload st.parity_blocks) m
              f.superblock_id j i t hsbd (fun hc => hij hc.symm) hj hi habsj habsi e he hefst
        · rw [if_neg hfec]
          exact ⟨hmeta, habsi, habsj⟩

theorem foldl_absent_pair (m : SessionMetadata) (i j t : Nat)
    (hsbd : 0 < m.superblock_data) (hij : i ≠ j)
    (hi : i ∈ superIndices m t) (hj : j ∈ superIndices m t) :
    ∀ (fs : List Frame) (st : Reassembler), st.meta = some m →
      alookup i st.data_blocks = none → alookup j st.data_blocks = none →
      (∀ f ∈ fs, f.frame_type ≠ FrameType.SESSION_HEADER ∧
        (f.frame_type = FrameType.DATA → f.block_id ≠ i ∧ f.block_id ≠ j)) →
      alookup i (List.foldl ingest st fs).data_blocks = none ∧
      alookup j (List.foldl ingest st fs).data_blocks = none
  | [], _, _, hai, haj, _ => ⟨hai, haj⟩
  | f :: rest, st, hmeta, hai, haj, hfs => by
    obtain ⟨h1, h2, h3⟩ := ingest_absent_pair m st f i j t hsbd hij hi hj hmeta hai haj
      (hfs f (by simp)).1 (hfs f (by simp)).2
    exact foldl_absent_pair m i j t hsbd hij hi hj rest (ingest st f) h1 h2 h3
      (fun g hg => hfs g (List.mem_cons_of_mem _ hg))

/-! ## Claim C9: cross-session isolation -/

/-- C9: once a session id is adopted (a real 16-byte id), ingesting any
frame bearing a different session id leaves the whole state unchanged. -/
theorem c9_cross_session_isolation (st : Reassembler) (f : Frame) (s : List Nat)
    (hs : st.session_id = some s) (hlen : s.length = 16) (hne : f.session_id ≠ s) :
    ingest st f = st := by
  have hmm : sessionMismatch st f := by
    unfold sessionMismatch
    rw [hs]
    exact ⟨fun hnil => by rw [hnil] at hlen; exact absurd hlen (by decide), hne⟩
  unfold ingest
  by_cases hh : f.frame_type = FrameType.SESSION_HEADER
  · rw [if_pos hh]
    unfold handleHeader
    cases hmd : metaDecode f.payload with
    | none => rfl
    | some m2 =>
      show (if sessionMismatch st f then st
        else Reassembler.mk (some m2) (some f.session_id) st.data_blocks st.parity_blocks
          (st.headers_seen + 1)) = st
      rw [if_pos hmm]
  · rw [if_neg hh, if_pos hmm]

def c9st : Reassembler :=
  Reassembler.mk none (some (List.replicate 16 0)) [] [] 1

def c9f : Frame :=
  { frame_type := .DATA, session_id := List.replicate 16 1, superblock_id := 0,
    block_id := 0, total_blocks := 1, blocks_in_super := 1, flags := 0, payload := [7] }

/-- Witness for C9 at a concrete adopted state and foreign frame. -/
theorem c9_cross_session_isolation_witness : ingest c9st c9f = c9st :=
  c9_cross_session_isolation c9st c9f (List.replicate 16 0) rfl (by decide) (by decide)

/-! ## Claim C6: later headers of the adopted session -/

def c6m1 : SessionMetadata := buildMetadata 1 1 1 0 [] [] [] [] 0 (List.replicate 16 0)

def c6m2 : SessionMetadata := buildMetadata 2 1 1 0 [] [] [] [] 0 (List.replicate 16 0)

/-- Counterexample to C6: a second SESSION_HEADER with the same session id
but different parseable metadata replaces the adopted metadata. -/
theorem c6_counterexample :
    (ingest (ingest initReassembler (headerFrame c6m1)) (headerFrame c6m2)).meta
      = some c6m2 ∧
    c6m2 ≠ c6m1 ∧
    (headerFrame c6m2).session_id = (headerFrame c6m1).session_id :=
  ⟨by decide, by decide, rfl⟩

/-- C6 (amended): after adoption, a further same-session SESSION_HEADER with
parseable payload re-adopts the newly parsed metadata (overwriting the old
one), while the stored data and parity blocks never change. -/
theorem c6_header_overwrites_meta (st : Reassembler) (f : Frame) (s : List Nat)
    (m2 : SessionMetadata)
    (hs : st.session_id = some s) (hf : f.frame_type = FrameType.SESSION_HEADER)
    (hfs : f.session_id = s) (hmd : metaDecode f.payload = some m2) :
    (ingest st f).meta = some m2 ∧
    (ingest st f).data_blocks = st.data_blocks ∧
    (ingest st f).parity_blocks = st.parity_blocks := by
  have hnm := sessionMismatch_false st f s hs hfs
  unfold ingest
  rw [if_pos hf]
  unfold handleHeader
  rw [hmd]
  refine ⟨?_, ?_, ?_⟩
  · show (if sessionMismatch st f then st
      else Reassembler.mk (some m2) (some f.session_id) st.data_blocks st.parity_blocks
        (st.headers_seen + 1)).meta = some m2
    rw [if_neg hnm]
  · show (if sessionMismatch st f then st
      else Reassembler.mk (some m2) (some f.session_id) st.data_blocks st.parity_blocks
        (st.headers_seen + 1)).data_blocks = st.data_blocks
    rw [if_neg hnm]
  · show (if sessionMismatch st f then st
      else Reassembler.mk (some m2) (some f.session_id) st.data_blocks st.parity_blocks
        (st.headers_seen + 1)).parity_blocks = st.parity_blocks
    rw [if_neg hnm]

def c6st : Reassembler :=
  Reassembler.mk (some c6m1) (some (List.replicate 16 0)) [(0, [7])] [] 1

/-- Witness for the amended C6 at a concrete adopted state. -/
theorem c6_header_overwrites_meta_witness :
    (ingest c6st (headerFrame c6m2)).meta = some c6m2 ∧
    (ingest c6st (headerFrame c6m2)).data_blocks = c6st.data_blocks ∧
    (ingest c6st (headerFrame c6m2)).parity_blocks = c6st.parity_blocks :=
  c6_header_overwrites_meta c6st (headerFrame c6m2) (List.replicate 16 0) c6m2
    rfl rfl rfl (metaDecode_metaEncode c6m2)

/-! ## Claim C5: completion -/

def c5m : SessionMetadata := buildMetadata 1 1 1 0 [] [] [] [] 0 (List.replicate 16 0)

def c5f : Frame :=
  { frame_type := .DATA, session_id := List.replicate 16 0, superblock_id := 0,
    block_id := 5, total_blocks := 1, blocks_in_super := 1, flags := 0, payload := [9] }

def c5st : Reassembler := ingest (ingest initReassembler (headerFrame c5m)) c5f

/-- Counterexample to C5: a reachable state (header then a DATA frame with
an out-of-range block id) where `is_complete` holds although block 0 is
absent and `write_payload` fails. -/
theorem c5_counterexample :
    isComplete c5st = true ∧ alookup 0 c5st.data_blocks = none ∧
    writePayload c5st = Except.error "Missing block" :=
  ⟨by decide, by decide, by decide⟩

/-- C5 (amended): in any state satisfying the session invariant (stored
blocks in range with unique keys and correct contents), `is_complete`
implies that every id below `total_chunks` is present and `write_payload`
returns the session payload. -/
theorem c5_complete_implies_all_present (m : SessionMetadata) (P : List Nat)
    (hses : SessionOK m P) (st : Reassembler) (hinv : StInv m P st)
    (hcomp : isComplete st = true) :
    (∀ i, i < m.total_chunks → (alookup i st.data_blocks).isSome = true) ∧
    writePayload st = Except.ok P := by
  have hlen : m.total_chunks ≤ st.data_blocks.length := by
    unfold isComplete at hcomp
    rw [hinv.1] at hcomp
    exact of_decide_eq_true hcomp
  have hall := keys_complete m P st hinv hlen
  exact ⟨hall, (complete_write m P hses st hinv hall).2⟩

def c5wst : Reassembler :=
  Reassembler.mk (some c5m) (some (List.replicate 16 0)) [(0, [7])] [] 1

/-- Witness for the amended C5 at a concrete complete state. -/
theorem c5_complete_implies_all_present_witness :
    writePayload c5wst = Except.ok [7] :=
  (c5_complete_implies_all_present c5m [7]
    ⟨by decide, by decide, by decide, by
      show c5m.total_chunks = (chunkList c5m.chunk_size [7]).length
      simp [c5m, buildMetadata, estimateTotalChunks, chunkList]⟩
    c5wst
    ⟨rfl, rfl,
     by
      intro e he
      have he2 : e ∈ [((0 : Nat), ([7] : List Nat))] := he
      rw [List.mem_singleton] at he2
      subst he2
      exact ⟨by decide, by simp [chunkVal, c5m, buildMetadata, chunkList]⟩,
     by unfold keysNodup; decide,
     fun e he => absurd he (List.not_mem_nil e)⟩
    (by decide)).2

/-! ## Claim C8: two missing blocks are never recovered -/

/-- C8: with the session adopted, if two distinct ids of one superblock are
both absent, then ingesting any frames that are not headers and whose DATA
frames avoid those two ids (in particular the superblock's remaining DATA
frames and any number of its FEC frames) leaves both ids absent. -/
theorem c8_two_missing_never_recovered (m : SessionMetadata) (st : Reassembler)
    (i j t : Nat) (fs : List Frame)
    (hsbd : 0 < m.superblock_data) (hij : i ≠ j)
    (hi : i ∈ superIndices m t) (hj : j ∈ superIndices m t)
    (hmeta : st.meta = some m)
    (habsi : alookup i st.data_blocks = none) (habsj : alookup j st.data_blocks = none)
    (hfs : ∀ f ∈ fs, f.frame_type ≠ FrameType.SESSION_HEADER ∧
      (f.frame_type = FrameType.DATA → f.block_id ≠ i ∧ f.block_id ≠ j)) :
    alookup i (List.foldl ingest st fs).data_blocks = none ∧
    alookup j (List.foldl ingest st fs).data_blocks = none :=
  foldl_absent_pair m i j t hsbd hij hi hj fs st hmeta habsi habsj hfs

def c8m : SessionMetadata := buildMetadata 2 1 2 1 [] [] [] [] 0 (List.replicate 16 0)

def c8st : Reassembler :=
  Reassembler.mk (some c8m) (some (List.replicate 16 0)) [] [] 1

def c8f : Frame :=
  { frame_type := .FEC, session_id := List.replicate 16 0, superblock_id := 0,
    block_id := 2, total_blocks := 2, blocks_in_super := 2, flags := 0,
    payload := parityVal c8m [5, 6] 0 }

/-- Witness for C8: both data blocks of a superblock dropped, one FEC frame
ingested, neither block appears. -/
theorem c8_two_missing_never_recovered_witness :
    alookup 0 (List.foldl ingest c8st [c8f]).data_blocks = none ∧
    alookup 1 (List.foldl ingest c8st [c8f]).data_blocks = none :=
  c8_two_missing_never_recovered c8m c8st 0 1 0 [c8f] (by decide) (by decide)
    (by decide) (by decide) rfl rfl rfl (by decide)

/-! ## Claim C3: single-loss recovery from parity -/

/-- C3: with the session adopted and exactly one block of a superblock
missing, ingesting one of its FEC frames stores the missing block; the
stored bytes are the truncated XOR recovery (`recover_single_missing`
followed by the `_expected_len` cut), which equals the true chunk. -/
theorem c3_single_loss_recovery (m : SessionMetadata) (P : List Nat) (st : Reassembler)
    (f : Frame) (i : Nat)
    (hses : SessionOK m P) (hinv : StInv m P st)
    (hft : f.frame_type = FrameType.FEC) (hsid : f.session_id = m.session_id)
    (hpay : f.payload = parityVal m P f.superblock_id)
    (hmiss : missingIds st.data_blocks m f.superblock_id = [i]) :
    alookup i (ingest st f).data_blocks = some (chunkVal m P i) ∧
    ∃ r, recoverSingleMissing (knownBlocks st.data_blocks m f.superblock_id)
        (parityVal m P f.superblock_id) 1 = some r ∧
      pySlice r (expectedLen m i) = chunkVal m P i := by
  have hpar2 : ∀ e ∈ parityAppend f.superblock_id f.payload st.parity_blocks,
      ∀ p ∈ e.2, p = parityVal m P e.1 :=
    parityAppend_parityOK m P st.parity_blocks f.superblock_id f.payload
      hinv.2.2.2.2 hpay
  obtain ⟨ps, hps0⟩ := parityAppend_lookup f.superblock_id f.payload st.parity_blocks
  obtain ⟨p0, prest, hcons⟩ :=
    List.exists_cons_of_ne_nil (show ps ++ [f.payload] ≠ [] by simp)
  rw [hcons] at hps0
  obtain ⟨hm0lt, hm0none, hre⟩ := recoverExtra_exact m P hses st.data_blocks
    (parityAppend f.superblock_id f.payload st.parity_blocks)
    hinv.2.2.1 hpar2 f.superblock_id i p0 prest hmiss hps0
  have hp0v : p0 = parityVal m P f.superblock_id :=
    hpar2 (f.superblock_id, p0 :: prest) (alookup_mem _ _ _ hps0) p0 (by simp)
  have hstep : (ingest st f).data_blocks = st.data_blocks ++
      recoverExtra st.data_blocks
        (parityAppend f.superblock_id f.payload st.parity_blocks) m f.superblock_id := by
    unfold ingest
    rw [if_neg (by rw [hft]; exact fun hc => FrameType.noConfusion hc)]
    rw [if_neg (sessionMismatch_false st f m.session_id hinv.2.1 hsid)]
    cases hm2 : st.meta with
    | none =>
      rw [hinv.1] at hm2
      exact Option.noConfusion hm2
    | some m1 =>
      have hm1 : m1 = m := Option.some.inj (hm2.symm.trans hinv.1)
      rw [if_neg (by rw [hft]; exact fun hc => FrameType.noConfusion hc)]
      rw [if_pos hft, hm1]
      rfl
  constructor
  · rw [hstep, hre]
    exact alookup_snoc_self i st.data_blocks (chunkVal m P i) hm0none
  · unfold recoverExtra at hre
    rw [hmiss, hps0] at hre
    revert hre
    show (match recoverSingleMissing (knownBlocks st.data_blocks m f.superblock_id) p0
        (List.length ([] : List Nat) + 1) with
      | none => ([] : List (Nat × List Nat))
      | some recovered => [(i, pySlice recovered (expectedLen m i))])
        = [(i, chunkVal m P i)] → _
    cases hrs : recoverSingleMissing (knownBlocks st.data_blocks m f.superblock_id) p0
        (List.length ([] : List Nat) + 1) with
    | none => exact fun hcon => absurd hcon (by simp)
    | some r =>
      intro hre2
      rw [List.cons.injEq] at hre2
      have hval : pySlice r (expectedLen m i) = chunkVal m P i :=
        (Prod.mk.injEq _ _ _ _ ▸ hre2.1).2
      refine ⟨r, ?_, hval⟩
      rw [← hp0v]
      exact hrs

def c3m : SessionMetadata := buildMetadata 3 1 2 1 [] [] [] [] 0 (List.replicate 16 0)

def c3st : Reassembler :=
  Reassembler.mk (some c3m) (some (List.replicate 16 0)) [(1, [2])] [] 1

def c3f : Frame :=
  { frame_type := .FEC, session_id := List.replicate 16 0, superblock_id := 0,
    block_id := 2, total_blocks := 3, blocks_in_super := 2, flags := 0,
    payload := parityVal c3m [1, 2, 3] 0 }

/-- Witness for C3: block 0 of superblock 0 missing, FEC frame recovers it. -/
theorem c3_single_loss_recovery_witness :
    alookup 0 (ingest c3st c3f).data_blocks = some (chunkVal c3m [1, 2, 3] 0) ∧
    ∃ r, recoverSingleMissing (knownBlocks c3st.data_blocks c3m c3f.superblock_id)
        (parityVal c3m [1, 2, 3] c3f.superblock_id) 1 = some r ∧
      pySlice r (expectedLen c3m 0) = chunkVal c3m [1, 2, 3] 0 :=
  c3_single_loss_recovery c3m [1, 2, 3] c3st c3f 0
    ⟨by decide, by decide, by decide, by
      show c3m.total_chunks = (chunkList c3m.chunk_size [1, 2, 3]).length
      simp [c3m, buildMetadata, estimateTotalChunks, chunkList]⟩
    ⟨rfl, rfl,
     by
      intro e he
      have he2 : e ∈ [((1 : Nat), ([2] : List Nat))] := he
      rw [List.mem_singleton] at he2
      subst he2
      exact ⟨by decide, by simp [chunkVal, c3m, buildMetadata, chunkList]⟩,
     by unfold keysNodup; decide,
     fun e he => absurd he (List.not_mem_nil e)⟩
    rfl rfl rfl (by decide)

/-! ## Claim C4: order independence -/

def c4m : SessionMetadata := buildMetadata 1 1 1 0 [] [] [] [] 0 (List.replicate 16 0)

def c4d : Frame :=
  { frame_type := .DATA, session_id := List.replicate 16 0, superblock_id := 0,
    block_id := 0, total_blocks := 1, blocks_in_super := 1, flags := 0, payload := [7] }

theorem c4_frames_eval : generateFrames c4m [7] 1 0 = [headerFrame c4m, c4d] := by
  simp [generateFrames, genLoop, superFrames, groupN, chunkList, c4d, c4m, buildMetadata,
    estimateTotalChunks, generateParityBlocks, headerFrame]
  rw [show List.range 1 = [0] from rfl]
  simp

/-- Counterexample to C4: reversing the emitted frame sequence (DATA before
the only SESSION_HEADER) changes the final reassembly result. -/
theorem c4_counterexample :
    ((generateFrames c4m [7] 1 0).reverse).Perm (generateFrames c4m [7] 1 0) ∧
    writePayload (List.foldl ingest initReassembler ((generateFrames c4m [7] 1 0).reverse))
      ≠ writePayload (List.foldl ingest initReassembler (generateFrames c4m [7] 1 0)) := by
  refine ⟨List.reverse_perm _, ?_⟩
  rw [c4_frames_eval]
  decide

/-- C4 (amended): any permutation of the emitted frame sequence that begins
with the session's SESSION_HEADER reassembles completely and byte-exactly
(so all such orders agree). -/
theorem c4_header_first_permutation (P : List Nat) (cs sbd red : Nat)
    (sha pack comp root : List Nat) (fc : Nat) (sid : List Nat) (hr hi : Nat)
    (m : SessionMetadata) (fs2 rest : List Frame)
    (hcs : 0 < cs) (hsbd : 0 < sbd)
    (hm : m = buildMetadata P.length cs sbd red sha pack comp root fc sid)
    (hperm : fs2.Perm (generateFrames m P hr hi))
    (hfirst : fs2 = headerFrame m :: rest) :
    isComplete (List.foldl ingest initReassembler fs2) = true ∧
    writePayload (List.foldl ingest initReassembler fs2) = Except.ok P := by
  have hses : SessionOK m P := by
    rw [hm]
    exact buildMetadata_SessionOK P cs sbd red sha pack comp root fc sid hcs hsbd
  subst hfirst
  rw [List.foldl_cons]
  have hinv1 := initHeader_inv m P
  have hgood : ∀ f ∈ rest, GoodFrame m P f := fun f hf =>
    generateFrames_good m P hses hr hi f (hperm.mem_iff.mp (List.mem_cons_of_mem _ hf))
  have hinv := foldl_ingest_inv m P hses rest _ hinv1 hgood
  have hall : ∀ i, i < m.total_chunks →
      (alookup i (List.foldl ingest (ingest initReassembler (headerFrame m))
        rest).data_blocks).isSome = true := by
    intro i hilt
    obtain ⟨f, hfmem, hft, hbid⟩ := generateFrames_covers m P hses hr hi i hilt
    have hfs2 : f ∈ headerFrame m :: rest := hperm.mem_iff.mpr hfmem
    have hfrest : f ∈ rest := by
      rcases List.mem_cons.mp hfs2 with hfh | h
      · exfalso
        rw [hfh] at hft
        exact FrameType.noConfusion hft
      · exact h
    have hpres := foldl_ingest_present m P hses rest
      (ingest initReassembler (headerFrame m)) hinv1 hgood f hfrest hft
    rw [hbid] at hpres
    exact hpres
  exact complete_write m P hses _ hinv hall

/-- Witness for the amended C4: the emitted order itself begins with the
header and reassembles to the payload. -/
theorem c4_header_first_permutation_witness :
    isComplete (List.foldl ingest initReassembler (generateFrames c4m [7] 1 0)) = true ∧
    writePayload (List.foldl ingest initReassembler (generateFrames c4m [7] 1 0))
      = Except.ok [7] :=
  c4_header_first_permutation [7] 1 1 0 [] [] [] [] 0 (List.replicate 16 0) 1 0 c4m
    (generateFrames c4m [7] 1 0) [c4d] (by decide) (by decide) rfl
    (List.Perm.refl _) c4_frames_eval

/-! ## Claim C1: reassembly completeness over the DATA frames -/

/-- C1: for a session built from a non-empty payload, ingesting the session
header and then every DATA frame of `generate_frames` exactly once makes
the reassembler complete, and `write_payload` reproduces the payload, whose
SHA-256 hex digest equals the metadata's `sha256` field. -/
theorem c1_reassembly_completeness (P : List Nat) (cs sbd red : Nat)
    (pack comp root : List Nat) (fc : Nat) (sid : List Nat) (hr hi : Nat)
    (m : SessionMetadata) (st : Reassembler)
    (hP : 0 < P.length) (hcs : 0 < cs) (hsbd : 0 < sbd)
    (hm : m = buildMetadata P.length cs sbd red (sha256hex P) pack comp root fc sid)
    (hst : st = List.foldl ingest (ingest initReassembler (headerFrame m))
      ((generateFrames m P hr hi).filter (fun f => decide (f.frame_type = FrameType.DATA)))) :
    isComplete st = true ∧ writePayload st = Except.ok P ∧ sha256hex P = m.sha256 := by
  have hses : SessionOK m P := by
    rw [hm]
    exact buildMetadata_SessionOK P cs sbd red (sha256hex P) pack comp root fc sid hcs hsbd
  subst hst
  have hinv1 := initHeader_inv m P
  have hgood : ∀ f ∈ (generateFrames m P hr hi).filter
      (fun f => decide (f.frame_type = FrameType.DATA)), GoodFrame m P f := fun f hf =>
    generateFrames_good m P hses hr hi f (List.mem_of_mem_filter hf)
  have hinv := foldl_ingest_inv m P hses _ _ hinv1 hgood
  have hall : ∀ i, i < m.total_chunks →
      (alookup i (List.foldl ingest (ingest initReassembler (headerFrame m))
        ((generateFrames m P hr hi).filter
          (fun f => decide (f.frame_type = FrameType.DATA)))).data_blocks).isSome
        = true := by
    intro i hilt
    obtain ⟨f, hfmem, hft, hbid⟩ := generateFrames_covers m P hses hr hi i hilt
    have hfmem2 : f ∈ (generateFrames m P hr hi).filter
        (fun f => decide (f.frame_type = FrameType.DATA)) :=
      List.mem_filter.mpr ⟨hfmem, by rw [hft]; rfl⟩
    have hpres := foldl_ingest_present m P hses _
      (ingest initReassembler (headerFrame m)) hinv1 hgood f hfmem2 hft
    rw [hbid] at hpres
    exact hpres
  obtain ⟨h1, h2⟩ := complete_write m P hses _ hinv hall
  refine ⟨h1, h2, ?_⟩
  rw [hm]
  rfl

def c1m : SessionMetadata :=
  buildMetadata 3 2 1 1 (sha256hex [7, 8, 9]) [] [] [] 0 (List.replicate 16 0)

def c1st : Reassembler :=
  List.foldl ingest (ingest initReassembler (headerFrame c1m))
    ((generateFrames c1m [7, 8, 9] 1 0).filter
      (fun f => decide (f.frame_type = FrameType.DATA)))

/-- Witness for C1 on a three-byte payload split into two chunks. -/
theorem c1_reassembly_completeness_witness :
    isComplete c1st = true ∧ writePayload c1st = Except.ok [7, 8, 9] ∧
    sha256hex [7, 8, 9] = c1m.sha256 :=
  c1_reassembly_completeness [7, 8, 9] 2 1 1 [] [] [] 0 (List.replicate 16 0) 1 0
    c1m c1st (by decide) (by decide) (by decide) rfl rfl
